import Mathlib

/-!
Verification of the hydration-reminder bot's two-stage water-input parser.

The development shallowly embeds the parsing pipeline of `src/lib/parser.ts`,
the IST time utilities of `src/lib/time.ts`, and the LLM fallback client of
`src/lib/llm.ts`.  Text is modelled as `List Char`; the JavaScript regular
expressions used by the source are hand-compiled into explicit scanners that
replicate the leftmost-match semantics of `String.prototype.match` for each
concrete pattern.  JavaScript numbers are modelled as `Nat`/`Int`/`Rat`
(`Math.round(x)` on nonnegative reals is floor of `x + 1/2`); `Date` values
are milliseconds since the Unix epoch.  External effects (the completion
endpoint, `JSON.parse`) are passed in as explicit parameters.
-/

namespace HydrationBot

/-! ### Character classes (JS `\d`, `\s`, `\w`, `toLowerCase`) -/

/-- JS `\d`. -/
def isDigitC (c : Char) : Bool := 48 ≤ c.toNat && c.toNat ≤ 57

/-- JS `\s`, restricted to the ASCII whitespace the bot can receive. -/
def isSpaceC (c : Char) : Bool :=
  c = ' ' || c = '\t' || c = '\n' || c = '\r' || c = Char.ofNat 11 || c = Char.ofNat 12

/-- JS `\w` (word character, used by `\b` word boundaries). -/
def isWordChar (c : Char) : Bool :=
  (97 ≤ c.toNat && c.toNat ≤ 122) || (65 ≤ c.toNat && c.toNat ≤ 90) ||
    isDigitC c || c = '_'

/-- ASCII `String.prototype.toLowerCase` on one character. -/
def toLowerChar (c : Char) : Char :=
  if 65 ≤ c.toNat && c.toNat ≤ 90 then Char.ofNat (c.toNat + 32) else c

/-- Numeric value of one ASCII digit. -/
def digitVal (c : Char) : Nat := c.toNat - 48

/-- `parseInt(ds, 10)` on a nonempty digit string. -/
def digitsVal (ds : List Char) : Nat := ds.foldl (fun a c => a * 10 + digitVal c) 0

/-! ### List scanning primitives -/

/-- Drop the literal `w` from the front of `s`; `none` when `w` is not there. -/
def chopLit : List Char → List Char → Option (List Char)
  | [], s => some s
  | _ :: _, [] => none
  | a :: as, b :: bs => if b = a then chopLit as bs else none

/-- Consume the optional literal `w` (`(?:w)?`, greedy). -/
def chopOpt (w : List Char) (r : List Char) : List Char :=
  match chopLit w r with
  | some t => t
  | none => r

/-- JS `\b` placed after a word character: next char absent or not a word char. -/
def boundaryAfter : List Char → Bool
  | [] => true
  | c :: _ => !isWordChar c

/-- Leftmost-match search: try `m` at every position, leftmost first
(the search loop of `RegExp.prototype.exec`). -/
def scanFirst (m : List Char → Option α) : List Char → Option α
  | [] => m []
  | c :: rest =>
    match m (c :: rest) with
    | some v => some v
    | none => scanFirst m rest

/-- Boolean variant of `scanFirst`, for patterns with no capture. -/
def scanB (m : List Char → Bool) : List Char → Bool
  | [] => m []
  | c :: rest => m (c :: rest) || scanB m rest

/-- `String.prototype.includes(w)`: `w` occurs contiguously in `s`. -/
def containsSeq (w : List Char) : List Char → Bool
  | [] => (chopLit w []).isSome
  | c :: rest => (chopLit w (c :: rest)).isSome || containsSeq w rest

/-- Match of `\b(w)\b` at one position given whether the previous character
was a word character; each `w` begins and ends with a word character. -/
def wordAtBoundary (w : List Char) (s : List Char) : Bool :=
  match chopLit w s with
  | some rest => boundaryAfter rest
  | none => false

/-- `\b(w₁|...|wₖ)\b.test`: scan carrying the previous-character class. -/
def scanBoundedWords (ws : List (List Char)) : Bool → List Char → Bool
  | _, [] => false
  | prevIsWord, c :: rest =>
    ((!prevIsWord) && ws.any fun w => wordAtBoundary w (c :: rest)) ||
      scanBoundedWords ws (isWordChar c) rest

/-- JS `String.prototype.trim` (ASCII whitespace). -/
def trimList (s : List Char) : List Char :=
  ((s.dropWhile isSpaceC).reverse.dropWhile isSpaceC).reverse

/-! ### `lib/time.ts` -/

/-- `IST_OFFSET_MS = 5.5 * 60 * 60 * 1000`. -/
def IST_OFFSET_MS : Int := 19800000

def MS_PER_DAY : Int := 86400000

/-- `todayMidnightIST()`: the `Date.UTC(y, m, d)` of `now + IST`, i.e. the
start of the current IST civil day, as a timestamp (parameterised by the
current instant `nowMs`, the source's `Date.now()`). -/
def todayMidnightIST (nowMs : Int) : Int :=
  ((nowMs + IST_OFFSET_MS).fdiv MS_PER_DAY) * MS_PER_DAY

/-- `yesterdayMidnightIST()`. -/
def yesterdayMidnightIST (nowMs : Int) : Int :=
  todayMidnightIST nowMs - 24 * 60 * 60 * 1000

/-- Gregorian calendar date from a count of days since 1970-01-01
(the arithmetic behind `getUTCFullYear/getUTCMonth/getUTCDate`). -/
def civilFromDays (z0 : Int) : Int × Int × Int :=
  let z := z0 + 719468
  let era := z.fdiv 146097
  let doe := z - era * 146097
  let yoe := (doe - doe / 1460 + doe / 36524 - doe / 146096) / 365
  let doy := doe - (365 * yoe + yoe / 4 - yoe / 100)
  let mp := (5 * doy + 2) / 153
  let d := doy - (153 * mp + 2) / 5 + 1
  let m := mp + (if mp < 10 then (3 : Int) else -9)
  (yoe + era * 400 + (if m ≤ 2 then 1 else 0), m, d)

/-- `String(n).padStart(2, '0')` for the 0‥99 field values produced here. -/
def pad2 (n : Int) : String := if n < 10 then "0" ++ toString n else toString n

/-- `toISTString(date)`: `YYYY-MM-DDTHH:mm:ss+05:30` of `date + IST`.
The argument may be fractional (retroactive offsets in fractional hours);
`getUTC*` floor the stored millisecond value. -/
def toISTString (t : ℚ) : String :=
  let ms : Int := ⌊t + (IST_OFFSET_MS : ℚ)⌋
  let days := ms.fdiv MS_PER_DAY
  let rem := ms - days * MS_PER_DAY
  let ymd := civilFromDays days
  let hh := rem / 3600000
  let mi := (rem % 3600000) / 60000
  let ss := (rem % 60000) / 1000
  toString ymd.1 ++ "-" ++ pad2 ymd.2.1 ++ "-" ++ pad2 ymd.2.2 ++ "T" ++
    pad2 hh ++ ":" ++ pad2 mi ++ ":" ++ pad2 ss ++ "+05:30"

/-- `nowISTString()`. -/
def nowISTString (nowMs : Int) : String := toISTString (nowMs : ℚ)

/-- `validateRetroactiveTime(offsetHours)`: `≤ 12` hours back, not before
the current IST civil day; returns the computed `log_time`. -/
def validateRetroactiveTime (nowMs : Int) (offsetHours : ℚ) : Option String :=
  if offsetHours > 12 || offsetHours < 0 then none
  else
    let targetTime : ℚ := (nowMs : ℚ) - offsetHours * (60 * 60 * 1000)
    let todayMidnightUTC : ℚ := ((todayMidnightIST nowMs - IST_OFFSET_MS : Int) : ℚ)
    if targetTime < todayMidnightUTC then none
    else some (toISTString targetTime)

/-- `validateRetroactiveTime` with the `offsetHours < 0` disjunct removed
from its first guard; used to state that the negative-hours rejection is
unreachable on the resolver's relative-time path. -/
def validateRetroactiveTimeNonneg (nowMs : Int) (offsetHours : ℚ) : Option String :=
  if offsetHours > 12 then none
  else
    let targetTime : ℚ := (nowMs : ℚ) - offsetHours * (60 * 60 * 1000)
    let todayMidnightUTC : ℚ := ((todayMidnightIST nowMs - IST_OFFSET_MS : Int) : ℚ)
    if targetTime < todayMidnightUTC then none
    else some (toISTString targetTime)

/-- Match of `(\d+)\s*hours?\s*ago` at one position. -/
def matchHoursAgoAt (s : List Char) : Option Nat :=
  let ds := s.takeWhile isDigitC
  if ds.isEmpty then none
  else
    match chopLit ['h', 'o', 'u', 'r'] ((s.dropWhile isDigitC).dropWhile isSpaceC) with
    | some rest =>
      let rest2 := chopOpt ['s'] rest
      if (chopLit ['a', 'g', 'o'] (rest2.dropWhile isSpaceC)).isSome then
        some (digitsVal ds)
      else none
    | none => none

/-- Match of `(\d+)\s*(?:minutes?|mins?)\s*ago` at one position. -/
def matchMinutesAgoAt (s : List Char) : Option Nat :=
  let ds := s.takeWhile isDigitC
  if ds.isEmpty then none
  else
    let r := (s.dropWhile isDigitC).dropWhile isSpaceC
    let afterUnit : Option (List Char) :=
      match chopLit ['m', 'i', 'n', 'u', 't', 'e'] r with
      | some rest => some (chopOpt ['s'] rest)
      | none =>
        match chopLit ['m', 'i', 'n'] r with
        | some rest => some (chopOpt ['s'] rest)
        | none => none
    match afterUnit with
    | some rest2 =>
      if (chopLit ['a', 'g', 'o'] (rest2.dropWhile isSpaceC)).isSome then
        some (digitsVal ds)
      else none
    | none => none

/-- `parseRelativeOffset(relativeTime)`: hours from `"N hour(s) ago"`,
`N/60` from `"N minute(s)/min(s) ago"`, otherwise `null` (the source's
explicit vague-term branch and its final `return null` both yield `none`).
`none`/empty-string input is falsy and returns `null` immediately. -/
def parseRelativeOffset (relativeTime : Option (List Char)) : Option ℚ :=
  match relativeTime with
  | none => none
  | some s =>
    if s.isEmpty then none
    else
      let lower := trimList (s.map toLowerChar)
      match scanFirst matchHoursAgoAt lower with
      | some n => some (n : ℚ)
      | none =>
        match scanFirst matchMinutesAgoAt lower with
        | some n => some ((n : ℚ) / 60)
        | none => none

/-! ### `types.ts` -/

/-- The `WaterIntent` union. -/
inductive WaterIntent where
  | log | clarify | no_action | edit | query | undo | chitchat
deriving DecidableEq, Repr

/-- `UserPreferences` (row of `user_preferences`). -/
structure UserPreferences where
  chat_id : String := ""
  target_ml : Nat := 3500
  bottle_size_ml : Nat := 750
  onboarding_complete : Nat := 1
  timezone : String := "Asia/Kolkata"
  created_at : Nat := 0
deriving DecidableEq, Repr

/-- `ParseResult`; absent optional fields are `none`. -/
structure ParseResult where
  success : Bool
  intent : Option WaterIntent := none
  amount_ml : Option ℚ := none
  log_time : Option String := none
  needs_clarification : Option Bool := none
  clarification_prompt : Option String := none
  adjust_by_ml : Option ℚ := none
  undo_count : Option ℚ := none
  chitchat_reply : Option String := none
deriving DecidableEq, Repr

/-- `LLMExtractionResult`, the normalized record built by `extractWaterIntent`.
`relative_time` is kept as a character list for `parseRelativeOffset`. -/
structure LLMExtractionResult where
  intent : WaterIntent
  amount_ml : Option ℚ
  relative_time : Option (List Char)
  ambiguous : Bool
  clarification_needed : Option String := none
  adjust_by_ml : Option ℚ := none
  undo_count : Option ℚ := none
deriving DecidableEq, Repr

/-! ### `lib/parser.ts` — Stage 1, the deterministic extractor -/

/-- Pattern 1 at one position: `(\d+)\s*ml\b`. -/
def matchMlAt (s : List Char) : Option Nat :=
  let ds := s.takeWhile isDigitC
  if ds.isEmpty then none
  else
    match chopLit ['m', 'l'] ((s.dropWhile isDigitC).dropWhile isSpaceC) with
    | some rest => if boundaryAfter rest then some (digitsVal ds) else none
    | none => none

/-- The liter-unit alternation `(?:l|liter|liters|litre|litres)\b`:
alternatives are tried in order and the trailing `\b` re-tries the next
alternative on failure, so the test is a disjunction. -/
def literUnitWithBoundary (s : List Char) : Bool :=
  [['l'], ['l', 'i', 't', 'e', 'r'], ['l', 'i', 't', 'e', 'r', 's'],
   ['l', 'i', 't', 'r', 'e'], ['l', 'i', 't', 'r', 'e', 's']].any fun u =>
    match chopLit u s with
    | some rest => boundaryAfter rest
    | none => false

/-- `Math.round(parseFloat("<ds>.<fs>") * 1000)` computed exactly on
rationals (round half up): `⌊1000·(I + F/10^k) + 1/2⌋`. -/
def literAmount (ds fs : List Char) : Nat :=
  let k := fs.length
  (2000 * (digitsVal ds * 10 ^ k + digitsVal fs) + 10 ^ k) / (2 * 10 ^ k)

/-- Splits the optional fraction `(?:\.\d+)?` off the front of `r1`. -/
def fracSplit (r1 : List Char) : List Char × List Char :=
  match r1 with
  | [] => ([], [])
  | c :: t =>
    if c = '.' then
      let f := t.takeWhile isDigitC
      if f.isEmpty then ([], c :: t) else (f, t.dropWhile isDigitC)
    else ([], c :: t)

/-- Pattern 2 at one position: `(\d+(?:\.\d+)?)\s*(?:l|liter|liters|litre|litres)\b`. -/
def matchLiterAt (s : List Char) : Option Nat :=
  let ds := s.takeWhile isDigitC
  if ds.isEmpty then none
  else
    let fr := fracSplit (s.dropWhile isDigitC)
    if literUnitWithBoundary (fr.2.dropWhile isSpaceC) then
      some (literAmount ds fr.1)
    else none

/-- The optional article `(?:a\s*)?` (consuming the `a` never blocks a
match that would succeed without it, since no continuation starts with `a`). -/
def skipOptA : List Char → List Char
  | [] => []
  | c :: t => if c = 'a' then t.dropWhile isSpaceC else c :: t

/-- The shared tail `\s*(?:a\s*)?bottle` of patterns 3 and 4. -/
def bottleWordAfter (r : List Char) : Bool :=
  (chopLit ['b', 'o', 't', 't', 'l', 'e'] (skipOptA (r.dropWhile isSpaceC))).isSome

/-- Pattern 3 at one position: `(?:half|1\/2)\s*(?:a\s*)?bottle`. -/
def matchHalfBottleAt (s : List Char) : Bool :=
  (match chopLit ['h', 'a', 'l', 'f'] s with
   | some r => bottleWordAfter r
   | none => false) ||
  (match chopLit ['1', '/', '2'] s with
   | some r => bottleWordAfter r
   | none => false)

/-- Pattern 4 at one position: `(?:quarter|1\/4)\s*(?:a\s*)?bottle`. -/
def matchQuarterBottleAt (s : List Char) : Bool :=
  (match chopLit ['q', 'u', 'a', 'r', 't', 'e', 'r'] s with
   | some r => bottleWordAfter r
   | none => false) ||
  (match chopLit ['1', '/', '4'] s with
   | some r => bottleWordAfter r
   | none => false)

/-- Pattern 5 at one position: `(\d+)\s*bottles?\b` (the optional `s` is
consumed when present; `\b` then fails either way when it fails). -/
def matchCountedBottleAt (s : List Char) : Option Nat :=
  let ds := s.takeWhile isDigitC
  if ds.isEmpty then none
  else
    match chopLit ['b', 'o', 't', 't', 'l', 'e'] ((s.dropWhile isDigitC).dropWhile isSpaceC) with
    | some rest =>
      let rest2 := chopOpt ['s'] rest
      if boundaryAfter rest2 then some (digitsVal ds) else none
    | none => none

/-- The tail `\s*bottle\b` of pattern 6. -/
def bareBottleTail (r : List Char) : Bool :=
  match chopLit ['b', 'o', 't', 't', 'l', 'e'] (r.dropWhile isSpaceC) with
  | some rest => boundaryAfter rest
  | none => false

/-- Pattern 6 at one position: `(?:one|a|1)?\s*bottle\b` (all four
alternatives of the optional group, tried as the regex engine would). -/
def matchBareBottleAt (s : List Char) : Bool :=
  (match chopLit ['o', 'n', 'e'] s with | some r => bareBottleTail r | none => false) ||
  (match chopLit ['a'] s with | some r => bareBottleTail r | none => false) ||
  (match chopLit ['1'] s with | some r => bareBottleTail r | none => false) ||
  bareBottleTail s

/-- Patterns 7/8 at one position: `(\d+)?\s*(?:a\s*)?<unit>(?:<plural>)?\b`
with the count defaulting to 1.  `unit`/`plural` instantiate to
`glass`/`es` and `cup`/`s`. -/
def matchCountedUnitAt (unit plural : List Char) (s : List Char) : Option Nat :=
  let ds := s.takeWhile isDigitC
  let r2 := skipOptA ((s.dropWhile isDigitC).dropWhile isSpaceC)
  match chopLit unit r2 with
  | some rest =>
    let rest2 := chopOpt plural rest
    if boundaryAfter rest2 then some (if ds.isEmpty then 1 else digitsVal ds) else none
  | none => none

/-- Pattern 1 with its `(0, 10000]` sanity check; a failed check falls
through to the next pattern. -/
def tryMl (lower : List Char) : Option Nat :=
  match scanFirst matchMlAt lower with
  | some a => if 0 < a && a ≤ 10000 then some a else none
  | none => none

/-- Pattern 2 with its `(0, 10000]` sanity check. -/
def tryLiter (lower : List Char) : Option Nat :=
  match scanFirst matchLiterAt lower with
  | some a => if 0 < a && a ≤ 10000 then some a else none
  | none => none

/-- Pattern 3: `Math.round(bottle_size_ml * 0.5)` — no range check. -/
def tryHalfBottle (lower : List Char) (prefs : UserPreferences) : Option Nat :=
  if scanB matchHalfBottleAt lower then some ((prefs.bottle_size_ml + 1) / 2) else none

/-- Pattern 4: `Math.round(bottle_size_ml * 0.25)` — no range check. -/
def tryQuarterBottle (lower : List Char) (prefs : UserPreferences) : Option Nat :=
  if scanB matchQuarterBottleAt lower then some ((prefs.bottle_size_ml + 2) / 4) else none

/-- Pattern 5: `bottle_size_ml * count` for counts in `[1, 10]` — the
count is range-checked, the resulting amount is not. -/
def tryCountedBottle (lower : List Char) (prefs : UserPreferences) : Option Nat :=
  match scanFirst matchCountedBottleAt lower with
  | some n => if 0 < n && n ≤ 10 then some (prefs.bottle_size_ml * n) else none
  | none => none

/-- Pattern 6: bare bottle, guarded by `!includes('half')` and
`!includes('quarter')` — no range check. -/
def tryBareBottle (lower : List Char) (prefs : UserPreferences) : Option Nat :=
  if scanB matchBareBottleAt lower &&
      !containsSeq ['h', 'a', 'l', 'f'] lower &&
      !containsSeq ['q', 'u', 'a', 'r', 't', 'e', 'r'] lower then
    some prefs.bottle_size_ml
  else none

/-- Pattern 7: `250 * count` for counts in `[1, 20]`. -/
def tryGlass (lower : List Char) : Option Nat :=
  match scanFirst (matchCountedUnitAt ['g', 'l', 'a', 's', 's'] ['e', 's']) lower with
  | some n => if 0 < n && n ≤ 20 then some (250 * n) else none
  | none => none

/-- Pattern 8: `200 * count` for counts in `[1, 20]`. -/
def tryCup (lower : List Char) : Option Nat :=
  match scanFirst (matchCountedUnitAt ['c', 'u', 'p'] ['s']) lower with
  | some n => if 0 < n && n ≤ 20 then some (200 * n) else none
  | none => none

/-- The ordered pattern cascade of `parseWaterInputRegex`. -/
def regexAmount (lower : List Char) (prefs : UserPreferences) : Option Nat :=
  (tryMl lower).orElse fun _ =>
  (tryLiter lower).orElse fun _ =>
  (tryHalfBottle lower prefs).orElse fun _ =>
  (tryQuarterBottle lower prefs).orElse fun _ =>
  (tryCountedBottle lower prefs).orElse fun _ =>
  (tryBareBottle lower prefs).orElse fun _ =>
  (tryGlass lower).orElse fun _ =>
  tryCup lower

/-- `parseWaterInputRegex(text, prefs)`: Stage 1, deterministic parsing. -/
def parseWaterInputRegex (text : List Char) (prefs : UserPreferences)
    (nowMs : Int) : ParseResult :=
  match regexAmount (text.map toLowerChar) prefs with
  | some a =>
    { success := true, amount_ml := some (a : ℚ), log_time := some (nowISTString nowMs) }
  | none => { success := false }

/-! ### `lib/parser.ts` — Stage 2 and the resolver -/

/-- `YESTERDAY_REGEX = /\b(yesterday|last night)\b/i` (the `i` flag is
modelled by lowercasing the text first). -/
def testYesterday (text : List Char) : Bool :=
  scanBoundedWords
    [['y', 'e', 's', 't', 'e', 'r', 'd', 'a', 'y'],
     ['l', 'a', 's', 't', ' ', 'n', 'i', 'g', 'h', 't']]
    false (text.map toLowerChar)

/-- The words of `TIME_PHRASE_REGEX`. -/
def TIME_PHRASE_WORDS : List (List Char) :=
  [['a', 'g', 'o'], ['e', 'a', 'r', 'l', 'i', 'e', 'r'],
   ['b', 'e', 'f', 'o', 'r', 'e'], ['m', 'o', 'r', 'n', 'i', 'n', 'g'],
   ['a', 'f', 't', 'e', 'r', 'n', 'o', 'o', 'n'],
   ['e', 'v', 'e', 'n', 'i', 'n', 'g'], ['h', 'o', 'u', 'r'],
   ['m', 'i', 'n', 'u', 't', 'e']]

/-- `TIME_PHRASE_REGEX = /\b(ago|earlier|before|morning|afternoon|evening|hour|minute)\b/i`. -/
def testTimePhrase (text : List Char) : Bool :=
  scanBoundedWords TIME_PHRASE_WORDS false (text.map toLowerChar)

def yesterdayClarifyMsg : String :=
  "I can only log water from today (up to 12 hours ago). I can\x27t add yesterday\x27s water to today\x27s total 💕"

def genericClarifyMsg : String :=
  "I didn\x27t quite catch that—how much water was it? 💧"

def editClarifyMsg : String := "How much should I reduce by? (e.g. 500ml)"

def notRightMsg : String :=
  "That doesn\x27t seem quite right. How much water was it in ml? 💧"

def whenDrinkMsg : String :=
  "When did you drink that? I can only log water from today (up to 12 hours ago)."

def beSpecificMsg : String :=
  "I can only log water from today (up to 12 hours ago). Could you be more specific?"

/-- `x || y` on an optional string (JS falsy: absent or empty). -/
def strOrDefault (x : Option String) (y : String) : String :=
  match x with
  | some s => if s = "" then y else s
  | none => y

/-- `x || undefined` on an optional string. -/
def strOrNone (x : Option String) : Option String :=
  match x with
  | some s => if s = "" then none else some s
  | none => none

/-- The clarify result shared by the `edit`-validation failure branch. -/
def editClarifyResult : ParseResult :=
  { success := false, needs_clarification := some true,
    clarification_prompt := some editClarifyMsg }

/-- `parseWaterInputLLM(text, env)` after the `extractWaterIntent` call;
`llmResult` is that call's value and `nowMs` the current instant. -/
def parseWaterInputLLM (text : List Char) (llmResult : LLMExtractionResult)
    (nowMs : Int) : ParseResult :=
  if testYesterday text && (llmResult.intent = .log || llmResult.amount_ml ≠ none) then
    { success := false, needs_clarification := some true,
      clarification_prompt := some yesterdayClarifyMsg }
  else if llmResult.intent = .no_action then
    { success := true, intent := some .no_action }
  else if llmResult.intent = .chitchat then
    { success := true, intent := some .chitchat,
      chitchat_reply := strOrNone llmResult.clarification_needed }
  else if llmResult.intent = .query then
    { success := true, intent := some .query }
  else if llmResult.intent = .undo then
    let undo_count : ℚ :=
      match llmResult.undo_count with
      | some u => if 1 ≤ u then min u 10 else 1
      | none => 1
    { success := true, intent := some .undo, undo_count := some undo_count }
  else if llmResult.intent = .edit then
    match llmResult.adjust_by_ml with
    | some adjust =>
      if adjust ≤ 0 || 10000 < adjust then editClarifyResult
      else { success := true, intent := some .edit, adjust_by_ml := some adjust }
    | none => editClarifyResult
  else if llmResult.intent = .clarify || llmResult.ambiguous || llmResult.amount_ml = none then
    { success := false, needs_clarification := some true,
      clarification_prompt :=
        some (strOrDefault llmResult.clarification_needed genericClarifyMsg) }
  else
    match llmResult.amount_ml with
    | none =>
      -- unreachable: `amount_ml = none` was caught by the clarify branch above
      { success := false, needs_clarification := some true,
        clarification_prompt :=
          some (strOrDefault llmResult.clarification_needed genericClarifyMsg) }
    | some a =>
      if a ≤ 0 || 10000 < a then
        { success := false, needs_clarification := some true,
          clarification_prompt := some notRightMsg }
      else
        match llmResult.relative_time with
        | some rt =>
          if rt.isEmpty then
            -- empty string is falsy: `if (llmResult.relative_time)` skips it
            { success := true, intent := some .log, amount_ml := some a,
              log_time := some (nowISTString nowMs) }
          else
            match parseRelativeOffset (some rt) with
            | none =>
              { success := false, needs_clarification := some true,
                clarification_prompt := some whenDrinkMsg }
            | some offsetHours =>
              match validateRetroactiveTime nowMs offsetHours with
              | none =>
                { success := false, needs_clarification := some true,
                  clarification_prompt := some beSpecificMsg }
              | some validatedTime =>
                { success := true, intent := some .log, amount_ml := some a,
                  log_time := some validatedTime }
        | none =>
          { success := true, intent := some .log, amount_ml := some a,
            log_time := some (nowISTString nowMs) }

/-- `parseWaterInput(text, prefs, env)`.  The second component records
whether the LLM fallback (`parseWaterInputLLM`, hence `extractWaterIntent`)
was invoked; `llmResult` is the value the fallback would produce. -/
def parseWaterInput (text : List Char) (prefs : UserPreferences)
    (llmResult : LLMExtractionResult) (nowMs : Int) : ParseResult × Bool :=
  let hasTimeReference := testTimePhrase text
  let regexResult := parseWaterInputRegex text prefs nowMs
  if regexResult.success && !hasTimeReference then (regexResult, false)
  else if regexResult.success && hasTimeReference then
    (parseWaterInputLLM text llmResult nowMs, true)
  else (parseWaterInputLLM text llmResult nowMs, true)

/-! ### `parseBottleSizeResponse` -/

/-- The affirmative alternation `^(?:yes|yeah|yep|yup|correct|ok|okay|sure|right)$`. -/
def AFFIRMATIVE_WORDS : List (List Char) :=
  [['y', 'e', 's'], ['y', 'e', 'a', 'h'], ['y', 'e', 'p'], ['y', 'u', 'p'],
   ['c', 'o', 'r', 'r', 'e', 'c', 't'], ['o', 'k'], ['o', 'k', 'a', 'y'],
   ['s', 'u', 'r', 'e'], ['r', 'i', 'g', 'h', 't']]

/-- `/(\d+)\s*ml/` at one position — no trailing word boundary here. -/
def matchMlLooseAt (s : List Char) : Option Nat :=
  let ds := s.takeWhile isDigitC
  if ds.isEmpty then none
  else
    match chopLit ['m', 'l'] ((s.dropWhile isDigitC).dropWhile isSpaceC) with
    | some _ => some (digitsVal ds)
    | none => none

/-- `/(\d+(?:\.\d+)?)\s*(?:l|liter|litre)/` at one position — no
boundary, so the `l` alternative alone decides matching. -/
def matchLiterLooseAt (s : List Char) : Option Nat :=
  let ds := s.takeWhile isDigitC
  if ds.isEmpty then none
  else
    let fr := fracSplit (s.dropWhile isDigitC)
    if [['l'], ['l', 'i', 't', 'e', 'r'], ['l', 'i', 't', 'r', 'e']].any
        (fun u => (chopLit u (fr.2.dropWhile isSpaceC)).isSome) then
      some (literAmount ds fr.1)
    else none

/-- The bare-number fall-through `^(\d+)$` with its `[100, 3000]` check. -/
def bottleFromBareNumber (lower : List Char) : Option Nat :=
  if !lower.isEmpty && lower.all isDigitC then
    let n := digitsVal lower
    if 100 ≤ n && n ≤ 3000 then some n else none
  else none

/-- The liter branch of `parseBottleSizeResponse`, falling through to the
bare-number branch. -/
def bottleFromLiter (lower : List Char) : Option Nat :=
  match scanFirst matchLiterLooseAt lower with
  | some size =>
    if 100 ≤ size && size ≤ 3000 then some size else bottleFromBareNumber lower
  | none => bottleFromBareNumber lower

/-- `parseBottleSizeResponse(text)`. -/
def parseBottleSizeResponse (text : List Char) : Option Nat :=
  let lower := trimList (text.map toLowerChar)
  if AFFIRMATIVE_WORDS.any (fun w => lower = w) then some 750
  else
    match scanFirst matchMlLooseAt lower with
    | some size =>
      if 100 ≤ size && size ≤ 3000 then some size else bottleFromLiter lower
    | none => bottleFromLiter lower

/-! ### `lib/llm.ts` — the fallback client

The network call and the platform JSON parser are external effects; they
enter the embedding as an explicit transport outcome and an explicit
`jsonParse` oracle.  A thrown `fetch`/timeout and a `response.json()`
failure both land in the source's `catch`, modelled by `throwsErr`. -/

/-- What the single `fetch` attempt produced. -/
inductive FetchOutcome where
  | throwsErr
  | response (ok : Bool) (content : Option (List Char))
deriving DecidableEq, Repr

/-- A JavaScript value as inspected by the normalization code. -/
inductive JSVal where
  | str (s : String)
  | num (q : ℚ)
  | boolean (b : Bool)
  | null
  | undef
  | obj
deriving DecidableEq, Repr

/-- JS truthiness for the values above. -/
def truthy : JSVal → Bool
  | .str s => !(s = "")
  | .num q => !(q = 0)
  | .boolean b => b
  | .null => false
  | .undef => false
  | .obj => true

/-- `typeof x === 'number' ? x : null`. -/
def asNum : JSVal → Option ℚ
  | .num q => some q
  | _ => none

/-- `typeof x === 'string' ? x : null`. -/
def asStr : JSVal → Option String
  | .str s => some s
  | _ => none

/-- The fields of the parsed LLM JSON object (absent fields are `undef`). -/
structure JsonFields where
  intent : JSVal := .undef
  amount_ml : JSVal := .undef
  relative_time : JSVal := .undef
  ambiguous : JSVal := .undef
  clarification_needed : JSVal := .undef
  adjust_by_ml : JSVal := .undef
  undo_count : JSVal := .undef
deriving DecidableEq, Repr

/-- `validIntents.includes(s)`. -/
def intentOfString : String → Option WaterIntent
  | "log" => some .log
  | "clarify" => some .clarify
  | "no_action" => some .no_action
  | "edit" => some .edit
  | "query" => some .query
  | "undo" => some .undo
  | "chitchat" => some .chitchat
  | _ => none

def backtickChar : Char := Char.ofNat 96
def openBraceChar : Char := Char.ofNat 123
def closeBraceChar : Char := Char.ofNat 125

/-- Rest of `s` after the first occurrence of the literal `w`. -/
def dropToAfterSeq (w : List Char) : List Char → Option (List Char)
  | [] => chopLit w []
  | c :: t =>
    match chopLit w (c :: t) with
    | some r => some r
    | none => dropToAfterSeq w t

/-- Characters of `s` strictly before the first occurrence of `w`. -/
def captureUpToSeq (w : List Char) : List Char → Option (List Char)
  | [] => if (chopLit w []).isSome then some [] else none
  | c :: t =>
    if (chopLit w (c :: t)).isSome then some []
    else (captureUpToSeq w t).map (c :: ·)

/-- The fenced-code-block extraction `/(three backticks)(?:json)?\s*([\s\S]*?)(three backticks)/`. -/
def fencedExtract (s : List Char) : Option (List Char) :=
  let fence := [backtickChar, backtickChar, backtickChar]
  match dropToAfterSeq fence s with
  | none => none
  | some r1 =>
    let r2 := match chopLit ['j', 's', 'o', 'n'] r1 with
      | some x => x
      | none => r1
    captureUpToSeq fence (r2.dropWhile isSpaceC)

/-- The first-object scan `/\x7b[\s\S]*\x7d/`: from the first opening brace
to the last closing brace. -/
def braceExtract (s : List Char) : Option (List Char) :=
  match s.dropWhile (fun c => !(c = openBraceChar)) with
  | [] => none
  | c :: t =>
    let r := (c :: t).reverse.dropWhile fun d => !(d = closeBraceChar)
    if r.isEmpty then none else some r.reverse

/-- `parseJSONSafely(content)`: raw parse, then fenced-block extraction
(whose own parse failure is final), then the first-object scan. -/
def parseJSONSafely (jsonParse : List Char → Option JsonFields)
    (content : List Char) : Option JsonFields :=
  match jsonParse content with
  | some o => some o
  | none =>
    match fencedExtract content with
    | some inner => jsonParse (trimList inner)
    | none =>
      match braceExtract content with
      | some objStr => jsonParse objStr
      | none => none

def noKeyMsg : String :=
  "I didn\x27t quite catch that—how much water was it? (Set OPENAI_API_KEY for natural language.)"

/-- `createFallbackResult()`. -/
def createFallbackResult : LLMExtractionResult :=
  { intent := .clarify, amount_ml := none, relative_time := none,
    ambiguous := true, clarification_needed := some genericClarifyMsg }

/-- The no-credential short-circuit value. -/
def noKeyResult : LLMExtractionResult :=
  { intent := .clarify, amount_ml := none, relative_time := none,
    ambiguous := true, clarification_needed := some noKeyMsg }

/-- `!env.OPENAI_API_KEY` (absent or empty string). -/
def isFalsyKey : Option String → Bool
  | none => true
  | some s => s = ""

/-- `extractWaterIntent(text, env)` as a function of the credential, the
transport outcome and the JSON-parse oracle.  The second component records
whether the network was called.  This function is total: every failure
mode maps to a safe `clarify` value. -/
def extractWaterIntent (apiKey : Option String) (outcome : FetchOutcome)
    (jsonParse : List Char → Option JsonFields) : LLMExtractionResult × Bool :=
  if isFalsyKey apiKey then (noKeyResult, false)
  else
    match outcome with
    | .throwsErr => (createFallbackResult, true)
    | .response ok content =>
      if !ok then (createFallbackResult, true)
      else
        match content with
        | none => (createFallbackResult, true)
        | some c =>
          if c.isEmpty then (createFallbackResult, true)
          else
            match parseJSONSafely jsonParse c with
            | none => (createFallbackResult, true)
            | some parsed =>
              let defaulted : WaterIntent :=
                if truthy parsed.ambiguous then .clarify else .log
              let intent : WaterIntent :=
                match asStr parsed.intent with
                | some s =>
                  match intentOfString s with
                  | some i => i
                  | none => defaulted
                | none => defaulted
              ({ intent := intent,
                 amount_ml := asNum parsed.amount_ml,
                 relative_time := (asStr parsed.relative_time).map String.toList,
                 ambiguous := truthy parsed.ambiguous,
                 clarification_needed := asStr parsed.clarification_needed,
                 adjust_by_ml := asNum parsed.adjust_by_ml,
                 undo_count := asNum parsed.undo_count }, true)

/-! ### Helper lemmas: scanners and character classes -/

theorem chopLit_eq_some {w s r : List Char} : chopLit w s = some r ↔ s = w ++ r := by
  induction w generalizing s with
  | nil => simp [chopLit, eq_comm]
  | cons a as ih =>
    cases s with
    | nil => simp [chopLit]
    | cons b bs =>
      by_cases hb : b = a
      · subst hb; simp [chopLit, ih]
      · simp [chopLit, hb]

theorem mem_of_chopLit_head {a : Char} {w s r : List Char}
    (h : chopLit (a :: w) s = some r) : a ∈ s := by
  rw [chopLit_eq_some] at h; simp [h]

theorem scanFirst_eq_none {α : Type} {m : List Char → Option α} {l : List Char}
    (h : ∀ s, s <:+ l → m s = none) : scanFirst m l = none := by
  induction l with
  | nil => simpa [scanFirst] using h [] (by simp)
  | cons c t ih =>
    simp only [scanFirst]
    rw [h (c :: t) (List.suffix_refl _)]
    exact ih fun s hs => h s (hs.trans (List.suffix_cons c t))

theorem scanFirst_some {α : Type} {m : List Char → Option α} {l : List Char} {v : α}
    (h : scanFirst m l = some v) : ∃ s, s <:+ l ∧ m s = some v := by
  induction l with
  | nil => exact ⟨[], List.suffix_refl [], by simpa [scanFirst] using h⟩
  | cons c t ih =>
    simp only [scanFirst] at h
    revert h
    cases hm : m (c :: t) with
    | some v₀ =>
      intro h; obtain rfl : v₀ = v := by simpa using h
      exact ⟨c :: t, List.suffix_refl _, hm⟩
    | none =>
      intro h
      obtain ⟨s, hs, hms⟩ := ih h
      exact ⟨s, hs.trans (List.suffix_cons c t), hms⟩

theorem scanFirst_cons {α : Type} (m : List Char → Option α) (c : Char) (t : List Char) :
    scanFirst m (c :: t) =
      match m (c :: t) with
      | some v => some v
      | none => scanFirst m t := rfl

theorem scanB_eq_false {m : List Char → Bool} {l : List Char}
    (h : ∀ s, s <:+ l → m s = false) : scanB m l = false := by
  induction l with
  | nil => simpa [scanB] using h [] (by simp)
  | cons c t ih =>
    simp only [scanB, Bool.or_eq_false_iff]
    exact ⟨h (c :: t) (List.suffix_refl _),
      ih fun s hs => h s (hs.trans (List.suffix_cons c t))⟩

theorem scanB_true {m : List Char → Bool} {l : List Char}
    (h : scanB m l = true) : ∃ s, s <:+ l ∧ m s = true := by
  induction l with
  | nil => exact ⟨[], List.suffix_refl [], by simpa [scanB] using h⟩
  | cons c t ih =>
    rcases Bool.or_eq_true_iff.mp (by simpa [scanB] using h) with hm | hm
    · exact ⟨c :: t, List.suffix_refl _, hm⟩
    · obtain ⟨s, hs, hms⟩ := ih hm
      exact ⟨s, hs.trans (List.suffix_cons c t), hms⟩

theorem scanBoundedWords_true {ws : List (List Char)} {l : List Char} :
    ∀ b, scanBoundedWords ws b l = true →
      ∃ w ∈ ws, ∃ s, s <:+ l ∧ wordAtBoundary w s = true := by
  induction l with
  | nil => intro b h; simp [scanBoundedWords] at h
  | cons c t ih =>
    intro b h
    have h' : (b = false ∧ ∃ w ∈ ws, wordAtBoundary w (c :: t) = true) ∨
        scanBoundedWords ws (isWordChar c) t = true := by
      simpa [scanBoundedWords] using h
    rcases h' with ⟨-, w, hw, hwb⟩ | hm
    · exact ⟨w, hw, c :: t, List.suffix_refl _, hwb⟩
    · obtain ⟨w, hw, s, hs, hws⟩ := ih (isWordChar c) hm
      exact ⟨w, hw, s, hs.trans (List.suffix_cons c t), hws⟩

theorem wordAtBoundary_true {w s : List Char} (h : wordAtBoundary w s = true) :
    ∃ r, s = w ++ r := by
  unfold wordAtBoundary at h
  revert h
  cases hc : chopLit w s with
  | none => intro h; cases h
  | some rest => intro _; exact ⟨rest, chopLit_eq_some.mp hc⟩

theorem mem_of_mem_dropWhile {p : Char → Bool} {l : List Char} {a : Char}
    (h : a ∈ l.dropWhile p) : a ∈ l := by
  induction l with
  | nil => simp at h
  | cons c t ih =>
    rw [List.dropWhile_cons] at h
    split at h
    · exact List.mem_cons_of_mem c (ih h)
    · exact h

theorem takeWhile_append_cons {p : Char → Bool} {l t : List Char} {c : Char}
    (hl : ∀ a ∈ l, p a = true) (hc : p c = false) :
    (l ++ c :: t).takeWhile p = l := by
  induction l with
  | nil => simp [List.takeWhile_cons, hc]
  | cons x xs ih =>
    simp only [List.cons_append, List.takeWhile_cons, hl x (by simp)]
    simp [ih fun a ha => hl a (List.mem_cons_of_mem x ha)]

theorem dropWhile_append_cons {p : Char → Bool} {l t : List Char} {c : Char}
    (hl : ∀ a ∈ l, p a = true) (hc : p c = false) :
    (l ++ c :: t).dropWhile p = c :: t := by
  induction l with
  | nil => simp [List.dropWhile_cons, hc]
  | cons x xs ih =>
    simp only [List.cons_append, List.dropWhile_cons, hl x (by simp)]
    simp [ih fun a ha => hl a (List.mem_cons_of_mem x ha)]

theorem takeWhile_all {p : Char → Bool} {l : List Char}
    (hl : ∀ a ∈ l, p a = true) : l.takeWhile p = l := by
  induction l with
  | nil => rfl
  | cons x xs ih =>
    simp only [List.takeWhile_cons, hl x (by simp)]
    simp [ih fun a ha => hl a (List.mem_cons_of_mem x ha)]

theorem dropWhile_eq_self_of_head {p : Char → Bool} {l : List Char}
    (h : ∀ c, l.head? = some c → p c = false) : l.dropWhile p = l := by
  cases l with
  | nil => rfl
  | cons c t => simp [List.dropWhile_cons, h c rfl]

theorem trimList_eq_self {l : List Char}
    (h1 : ∀ c, l.head? = some c → isSpaceC c = false)
    (h2 : ∀ c, l.getLast? = some c → isSpaceC c = false) : trimList l = l := by
  unfold trimList
  rw [dropWhile_eq_self_of_head h1]
  rw [dropWhile_eq_self_of_head (by
    intro c hc
    exact h2 c (by rwa [List.head?_reverse] at hc))]
  exact List.reverse_reverse l

/-! Character-class facts -/

theorem digit_ne {c x : Char} (h : isDigitC c = true) (hx : isDigitC x = false) :
    c ≠ x := by
  intro he; subst he; rw [h] at hx; cases hx

theorem digit_toNat {c : Char} (h : isDigitC c = true) :
    48 ≤ c.toNat ∧ c.toNat ≤ 57 := by
  simpa [isDigitC] using h

theorem isSpaceC_of_digit {c : Char} (h : isDigitC c = true) : isSpaceC c = false := by
  simp only [isSpaceC, Bool.or_eq_false_iff, decide_eq_false_iff_not]
  exact ⟨⟨⟨⟨⟨digit_ne h (by decide), digit_ne h (by decide)⟩, digit_ne h (by decide)⟩,
    digit_ne h (by decide)⟩, digit_ne h (by decide)⟩, digit_ne h (by decide)⟩

theorem isWordChar_of_digit {c : Char} (h : isDigitC c = true) : isWordChar c = true := by
  simp [isWordChar, h]

theorem toLowerChar_digit {c : Char} (h : isDigitC c = true) : toLowerChar c = c := by
  obtain ⟨-, h2⟩ := digit_toNat h
  unfold toLowerChar
  rw [if_neg]
  simp only [Bool.and_eq_true, decide_eq_true_eq, not_and]
  omega

theorem map_toLower_digits {ds : List Char} (h : ∀ c ∈ ds, isDigitC c = true) :
    ds.map toLowerChar = ds := by
  induction ds with
  | nil => rfl
  | cons c t ih =>
    simp only [List.map_cons, toLowerChar_digit (h c (by simp))]
    simp [ih fun a ha => h a (List.mem_cons_of_mem c ha)]

/-! ### Matcher occurrence lemmas

Each pattern matcher can only succeed when some anchor character of its
literal part occurs in the scanned text; these drive all no-match proofs. -/

theorem mem_of_chopLit_rest {w s r : List Char} (h : chopLit w s = some r)
    {a : Char} (ha : a ∈ r) : a ∈ s := by
  rw [chopLit_eq_some] at h; subst h; exact List.mem_append_right _ ha

theorem matchMlAt_mem {s : List Char} {n : Nat} (h : matchMlAt s = some n) : 'm' ∈ s := by
  simp only [matchMlAt] at h
  split at h
  · cases h
  · split at h
    · next rest heq =>
      exact mem_of_mem_dropWhile (mem_of_mem_dropWhile (mem_of_chopLit_head heq))
    · cases h

theorem mem_fracSplit_snd {r : List Char} {a : Char} (ha : a ∈ (fracSplit r).2) :
    a ∈ r := by
  unfold fracSplit at ha
  split at ha
  · simp at ha
  · next c t =>
    split at ha
    · dsimp only at ha
      split at ha
      · exact ha
      · exact List.mem_cons_of_mem _ (mem_of_mem_dropWhile ha)
    · exact ha

theorem literUnitWithBoundary_mem {s : List Char}
    (h : literUnitWithBoundary s = true) : 'l' ∈ s := by
  simp only [literUnitWithBoundary, List.any_eq_true] at h
  obtain ⟨u, hu, hmatch⟩ := h
  have : ∃ r, chopLit u s = some r := by
    revert hmatch
    cases hc : chopLit u s with
    | none => intro hm; cases hm
    | some rest => intro _; exact ⟨rest, rfl⟩
  obtain ⟨r, hr⟩ := this
  fin_cases hu <;> exact mem_of_chopLit_head hr

theorem matchLiterAt_mem {s : List Char} {n : Nat} (h : matchLiterAt s = some n) :
    'l' ∈ s := by
  simp only [matchLiterAt] at h
  split at h
  · cases h
  · split at h
    · next hb =>
      exact mem_of_mem_dropWhile
        (mem_fracSplit_snd (mem_of_mem_dropWhile (literUnitWithBoundary_mem hb)))
    · cases h

theorem matchHalfBottleAt_mem {s : List Char} (h : matchHalfBottleAt s = true) :
    'h' ∈ s ∨ '/' ∈ s := by
  simp only [matchHalfBottleAt, Bool.or_eq_true_iff] at h
  rcases h with h | h
  · left
    revert h
    cases hc : chopLit ['h', 'a', 'l', 'f'] s with
    | none => intro h; cases h
    | some r => intro _; exact mem_of_chopLit_head hc
  · right
    revert h
    cases hc : chopLit ['1', '/', '2'] s with
    | none => intro h; cases h
    | some r =>
      intro _
      have := chopLit_eq_some.mp hc; subst this; simp

theorem matchQuarterBottleAt_mem {s : List Char} (h : matchQuarterBottleAt s = true) :
    'q' ∈ s ∨ '/' ∈ s := by
  simp only [matchQuarterBottleAt, Bool.or_eq_true_iff] at h
  rcases h with h | h
  · left
    revert h
    cases hc : chopLit ['q', 'u', 'a', 'r', 't', 'e', 'r'] s with
    | none => intro h; cases h
    | some r => intro _; exact mem_of_chopLit_head hc
  · right
    revert h
    cases hc : chopLit ['1', '/', '4'] s with
    | none => intro h; cases h
    | some r =>
      intro _
      have := chopLit_eq_some.mp hc; subst this; simp

theorem matchCountedBottleAt_mem {s : List Char} {n : Nat}
    (h : matchCountedBottleAt s = some n) : 'b' ∈ s := by
  simp only [matchCountedBottleAt] at h
  split at h
  · cases h
  · split at h
    · next rest heq =>
      exact mem_of_mem_dropWhile (mem_of_mem_dropWhile (mem_of_chopLit_head heq))
    · cases h

theorem bareBottleTail_mem {r : List Char} (h : bareBottleTail r = true) : 'b' ∈ r := by
  unfold bareBottleTail at h
  revert h
  cases hc : chopLit ['b', 'o', 't', 't', 'l', 'e'] (r.dropWhile isSpaceC) with
  | none => intro hb; cases hb
  | some rest => intro _; exact mem_of_mem_dropWhile (mem_of_chopLit_head hc)

theorem matchBareBottleAt_mem {s : List Char} (h : matchBareBottleAt s = true) :
    'b' ∈ s := by
  have tail1mem : ∀ r : List Char, bareBottleTail r = true → 'b' ∈ r :=
    fun _ => bareBottleTail_mem
  simp only [matchBareBottleAt, Bool.or_eq_true_iff] at h
  rcases h with ((h | h) | h) | h
  · revert h
    cases hc : chopLit ['o', 'n', 'e'] s with
    | none => intro h; cases h
    | some r => intro h; exact mem_of_chopLit_rest hc (tail1mem r h)
  · revert h
    cases hc : chopLit ['a'] s with
    | none => intro h; cases h
    | some r => intro h; exact mem_of_chopLit_rest hc (tail1mem r h)
  · revert h
    cases hc : chopLit ['1'] s with
    | none => intro h; cases h
    | some r => intro h; exact mem_of_chopLit_rest hc (tail1mem r h)
  · exact tail1mem s h

theorem mem_of_optA {r : List Char} {a : Char} (ha : a ∈ skipOptA r) : a ∈ r := by
  unfold skipOptA at ha
  split at ha
  · simp at ha
  · split at ha
    · exact List.mem_cons_of_mem _ (mem_of_mem_dropWhile ha)
    · exact ha

theorem matchCountedUnitAt_mem {u0 : Char} {u p s : List Char} {n : Nat}
    (h : matchCountedUnitAt (u0 :: u) p s = some n) : u0 ∈ s := by
  simp only [matchCountedUnitAt] at h
  split at h
  · next rest heq =>
    exact mem_of_mem_dropWhile (mem_of_mem_dropWhile (mem_of_optA (mem_of_chopLit_head heq)))
  · cases h

theorem matchHoursAgoAt_mem {s : List Char} {n : Nat}
    (h : matchHoursAgoAt s = some n) : 'h' ∈ s := by
  simp only [matchHoursAgoAt] at h
  split at h
  · cases h
  · split at h
    · next rest heq =>
      exact mem_of_mem_dropWhile (mem_of_mem_dropWhile (mem_of_chopLit_head heq))
    · cases h

theorem matchMinutesAgoAt_mem {s : List Char} {n : Nat}
    (h : matchMinutesAgoAt s = some n) : 'm' ∈ s := by
  simp only [matchMinutesAgoAt] at h
  split at h
  · cases h
  · revert h
    cases h6 : chopLit ['m', 'i', 'n', 'u', 't', 'e']
        ((s.dropWhile isDigitC).dropWhile isSpaceC) with
    | some rest =>
      intro _
      exact mem_of_mem_dropWhile (mem_of_mem_dropWhile (mem_of_chopLit_head h6))
    | none =>
      cases h3 : chopLit ['m', 'i', 'n'] ((s.dropWhile isDigitC).dropWhile isSpaceC) with
      | some rest =>
        intro _
        exact mem_of_mem_dropWhile (mem_of_mem_dropWhile (mem_of_chopLit_head h3))
      | none => intro h; simp at h

theorem matchMlLooseAt_mem {s : List Char} {n : Nat}
    (h : matchMlLooseAt s = some n) : 'm' ∈ s := by
  simp only [matchMlLooseAt] at h
  split at h
  · cases h
  · split at h
    · next rest heq =>
      exact mem_of_mem_dropWhile (mem_of_mem_dropWhile (mem_of_chopLit_head heq))
    · cases h

theorem matchLiterLooseAt_mem {s : List Char} {n : Nat}
    (h : matchLiterLooseAt s = some n) : 'l' ∈ s := by
  simp only [matchLiterLooseAt] at h
  split at h
  · cases h
  · split at h
    · next hb =>
      simp only [List.any_eq_true] at hb
      obtain ⟨u, hu, hmatch⟩ := hb
      have : ∃ r, chopLit u ((fracSplit (s.dropWhile isDigitC)).2.dropWhile isSpaceC) =
          some r := Option.isSome_iff_exists.mp hmatch
      obtain ⟨r, hr⟩ := this
      have hl : 'l' ∈ (fracSplit (s.dropWhile isDigitC)).2.dropWhile isSpaceC := by
        fin_cases hu <;> exact mem_of_chopLit_head hr
      exact mem_of_mem_dropWhile (mem_fracSplit_snd (mem_of_mem_dropWhile hl))
    · cases h

/-! ### No-match machinery -/

theorem chopLit_cons_ne {a c : Char} {w t : List Char} (h : c ≠ a) :
    chopLit (a :: w) (c :: t) = none := by
  simp [chopLit, h]

theorem chopLit_cons_eq {a : Char} {w t : List Char} :
    chopLit (a :: w) (a :: t) = chopLit w t := by
  simp [chopLit]

theorem chopLit_nil (s : List Char) : chopLit [] s = some s := rfl

theorem suffix_digits_append {l₁ l₂ s : List Char} (h : s <:+ l₁ ++ l₂) :
    (∃ t, t <:+ l₁ ∧ s = t ++ l₂) ∨ s <:+ l₂ := by
  obtain ⟨pre, hpre⟩ := h
  rcases List.append_eq_append_iff.mp hpre with ⟨a', h1, h2⟩ | ⟨c', h1, h2⟩
  · exact Or.inl ⟨a', ⟨pre, h1.symm⟩, h2⟩
  · exact Or.inr ⟨c', h2.symm⟩

theorem not_mem_digits_append {ds tail : List Char}
    (hds : ∀ c ∈ ds, isDigitC c = true) {x : Char} (hx : isDigitC x = false)
    (hxt : x ∉ tail) : x ∉ ds ++ tail := by
  intro hmem
  rcases List.mem_append.mp hmem with hm | hm
  · rw [hds x hm] at hx; cases hx
  · exact hxt hm

theorem scanFirst_none_of_not_mem {α : Type} {m : List Char → Option α} {x : Char}
    (hmem : ∀ s n, m s = some n → x ∈ s) {l : List Char} (hx : x ∉ l) :
    scanFirst m l = none :=
  scanFirst_eq_none fun s hs => by
    cases hc : m s with
    | none => rfl
    | some n => exact absurd (hs.subset (hmem s n hc)) hx

theorem scanB_false_of_not_mem {m : List Char → Bool} {x : Char}
    (hmem : ∀ s, m s = true → x ∈ s) {l : List Char} (hx : x ∉ l) :
    scanB m l = false :=
  scanB_eq_false fun s hs => by
    cases hc : m s with
    | true => exact absurd (hs.subset (hmem s hc)) hx
    | false => rfl

theorem scanHalf_false {l : List Char} (h1 : 'h' ∉ l) (h2 : '/' ∉ l) :
    scanB matchHalfBottleAt l = false :=
  scanB_eq_false fun s hs => by
    cases hc : matchHalfBottleAt s with
    | false => rfl
    | true =>
      rcases matchHalfBottleAt_mem hc with hm | hm
      · exact absurd (hs.subset hm) h1
      · exact absurd (hs.subset hm) h2

theorem scanQuarter_false {l : List Char} (h1 : 'q' ∉ l) (h2 : '/' ∉ l) :
    scanB matchQuarterBottleAt l = false :=
  scanB_eq_false fun s hs => by
    cases hc : matchQuarterBottleAt s with
    | false => rfl
    | true =>
      rcases matchQuarterBottleAt_mem hc with hm | hm
      · exact absurd (hs.subset hm) h1
      · exact absurd (hs.subset hm) h2

theorem scanBoundedWords_false {ws : List (List Char)} {l : List Char}
    (h : ∀ w ∈ ws, ∃ x ∈ w, x ∉ l) (b : Bool) :
    scanBoundedWords ws b l = false := by
  cases hbe : scanBoundedWords ws b l with
  | false => rfl
  | true =>
    obtain ⟨w, hw, s, hs, hws⟩ := scanBoundedWords_true b hbe
    obtain ⟨r, hr⟩ := wordAtBoundary_true hws
    obtain ⟨x, hxw, hxl⟩ := h w hw
    exact absurd (hs.subset (hr ▸ List.mem_append_left r hxw)) hxl

/-! ### Evaluation on `"<digits> bottles"` inputs -/

theorem matchCountedBottleAt_bottles {d : Char} {ds' : List Char}
    (h : ∀ c ∈ d :: ds', isDigitC c = true) :
    matchCountedBottleAt ((d :: ds') ++ [' ', 'b', 'o', 't', 't', 'l', 'e', 's']) =
      some (digitsVal (d :: ds')) := by
  simp only [matchCountedBottleAt]
  rw [takeWhile_append_cons h (by decide), dropWhile_append_cons h (by decide)]
  rfl

theorem scanCountedBottle_bottles {d : Char} {ds' : List Char}
    (h : ∀ c ∈ d :: ds', isDigitC c = true) :
    scanFirst matchCountedBottleAt ((d :: ds') ++ [' ', 'b', 'o', 't', 't', 'l', 'e', 's']) =
      some (digitsVal (d :: ds')) := by
  rw [List.cons_append, scanFirst_cons, ← List.cons_append, matchCountedBottleAt_bottles h]

theorem matchLiterAt_bottles {ds₂ : List Char} (h : ∀ c ∈ ds₂, isDigitC c = true) :
    matchLiterAt (ds₂ ++ [' ', 'b', 'o', 't', 't', 'l', 'e', 's']) = none := by
  cases ds₂ with
  | nil => decide
  | cons d ds' =>
    simp only [matchLiterAt]
    rw [takeWhile_append_cons h (by decide), dropWhile_append_cons h (by decide)]
    rfl

theorem scanLiter_bottles {ds : List Char} (h : ∀ c ∈ ds, isDigitC c = true) :
    scanFirst matchLiterAt (ds ++ [' ', 'b', 'o', 't', 't', 'l', 'e', 's']) = none := by
  have hall : ∀ u ∈ List.tails ([' ', 'b', 'o', 't', 't', 'l', 'e', 's'] : List Char),
      matchLiterAt u = none := by decide
  refine scanFirst_eq_none fun s hs => ?_
  rcases suffix_digits_append hs with ⟨t, ht, rfl⟩ | hst
  · exact matchLiterAt_bottles fun c hc => h c (ht.subset hc)
  · exact hall s ((List.mem_tails _ _).mpr hst)

theorem bareBottleTail_bottles {ds₂ : List Char} (h : ∀ c ∈ ds₂, isDigitC c = true) :
    bareBottleTail (ds₂ ++ [' ', 'b', 'o', 't', 't', 'l', 'e', 's']) = false := by
  cases ds₂ with
  | nil => decide
  | cons e es =>
    unfold bareBottleTail
    rw [List.cons_append,
      dropWhile_eq_self_of_head
        (fun c hc => by rw [List.head?_cons, Option.some_inj] at hc; subst hc
                        exact isSpaceC_of_digit (h e (by simp))),
      chopLit_cons_ne (digit_ne (h e (by simp)) (by decide))]

theorem matchBareBottleAt_bottles {ds₂ : List Char} (h : ∀ c ∈ ds₂, isDigitC c = true) :
    matchBareBottleAt (ds₂ ++ [' ', 'b', 'o', 't', 't', 'l', 'e', 's']) = false := by
  cases ds₂ with
  | nil => decide
  | cons d ds' =>
    have hd : isDigitC d = true := h d (by simp)
    have hds' : ∀ c ∈ ds', isDigitC c = true := fun c hc => h c (List.mem_cons_of_mem d hc)
    simp only [matchBareBottleAt, List.cons_append]
    rw [chopLit_cons_ne (digit_ne hd (by decide) : d ≠ 'o'),
      chopLit_cons_ne (digit_ne hd (by decide) : d ≠ 'a')]
    have h4 : bareBottleTail (d :: (ds' ++ [' ', 'b', 'o', 't', 't', 'l', 'e', 's'])) = false := by
      rw [← List.cons_append]
      exact bareBottleTail_bottles h
    by_cases h1 : d = '1'
    · subst h1
      rw [chopLit_cons_eq, chopLit_nil]
      simp only [h4, bareBottleTail_bottles hds', Bool.or_self, Bool.or_false]
    · rw [chopLit_cons_ne h1]
      simp only [h4, Bool.or_self, Bool.or_false]

theorem scanBare_bottles {ds : List Char} (h : ∀ c ∈ ds, isDigitC c = true) :
    scanB matchBareBottleAt (ds ++ [' ', 'b', 'o', 't', 't', 'l', 'e', 's']) = false := by
  have hall : ∀ u ∈ List.tails ([' ', 'b', 'o', 't', 't', 'l', 'e', 's'] : List Char),
      matchBareBottleAt u = false := by decide
  refine scanB_eq_false fun s hs => ?_
  rcases suffix_digits_append hs with ⟨t, ht, rfl⟩ | hst
  · exact matchBareBottleAt_bottles fun c hc => h c (ht.subset hc)
  · exact hall s ((List.mem_tails _ _).mpr hst)

theorem regexAmount_bottles {d : Char} {ds' : List Char} (prefs : UserPreferences)
    (h : ∀ c ∈ d :: ds', isDigitC c = true) :
    regexAmount ((d :: ds') ++ [' ', 'b', 'o', 't', 't', 'l', 'e', 's']) prefs =
      if 0 < digitsVal (d :: ds') && digitsVal (d :: ds') ≤ 10 then
        some (prefs.bottle_size_ml * digitsVal (d :: ds'))
      else none := by
  have hm : 'm' ∉ (d :: ds') ++ [' ', 'b', 'o', 't', 't', 'l', 'e', 's'] :=
    not_mem_digits_append h (by decide) (by decide)
  have hh : 'h' ∉ (d :: ds') ++ [' ', 'b', 'o', 't', 't', 'l', 'e', 's'] :=
    not_mem_digits_append h (by decide) (by decide)
  have hq : 'q' ∉ (d :: ds') ++ [' ', 'b', 'o', 't', 't', 'l', 'e', 's'] :=
    not_mem_digits_append h (by decide) (by decide)
  have hsl : '/' ∉ (d :: ds') ++ [' ', 'b', 'o', 't', 't', 'l', 'e', 's'] :=
    not_mem_digits_append h (by decide) (by decide)
  have hg : 'g' ∉ (d :: ds') ++ [' ', 'b', 'o', 't', 't', 'l', 'e', 's'] :=
    not_mem_digits_append h (by decide) (by decide)
  have hc : 'c' ∉ (d :: ds') ++ [' ', 'b', 'o', 't', 't', 'l', 'e', 's'] :=
    not_mem_digits_append h (by decide) (by decide)
  have t1 : tryMl ((d :: ds') ++ [' ', 'b', 'o', 't', 't', 'l', 'e', 's']) = none := by
    simp only [tryMl]
    rw [scanFirst_none_of_not_mem (fun s n hs => matchMlAt_mem hs) hm]
  have t2 : tryLiter ((d :: ds') ++ [' ', 'b', 'o', 't', 't', 'l', 'e', 's']) = none := by
    simp only [tryLiter]
    rw [scanLiter_bottles h]
  have t3 : tryHalfBottle ((d :: ds') ++ [' ', 'b', 'o', 't', 't', 'l', 'e', 's']) prefs = none := by
    simp only [tryHalfBottle]
    rw [scanHalf_false hh hsl]
    rfl
  have t4 : tryQuarterBottle ((d :: ds') ++ [' ', 'b', 'o', 't', 't', 'l', 'e', 's']) prefs = none := by
    simp only [tryQuarterBottle]
    rw [scanQuarter_false hq hsl]
    rfl
  have t5 : tryCountedBottle ((d :: ds') ++ [' ', 'b', 'o', 't', 't', 'l', 'e', 's']) prefs =
      if 0 < digitsVal (d :: ds') && digitsVal (d :: ds') ≤ 10 then
        some (prefs.bottle_size_ml * digitsVal (d :: ds'))
      else none := by
    simp only [tryCountedBottle]
    rw [scanCountedBottle_bottles h]
  have t6 : tryBareBottle ((d :: ds') ++ [' ', 'b', 'o', 't', 't', 'l', 'e', 's']) prefs = none := by
    simp only [tryBareBottle]
    rw [scanBare_bottles h]
    rfl
  have t7 : tryGlass ((d :: ds') ++ [' ', 'b', 'o', 't', 't', 'l', 'e', 's']) = none := by
    simp only [tryGlass]
    rw [scanFirst_none_of_not_mem (fun s n hs => matchCountedUnitAt_mem hs) hg]
  have t8 : tryCup ((d :: ds') ++ [' ', 'b', 'o', 't', 't', 'l', 'e', 's']) = none := by
    simp only [tryCup]
    rw [scanFirst_none_of_not_mem (fun s n hs => matchCountedUnitAt_mem hs) hc]
  simp only [regexAmount, t1, t2, t3, t4, t5, t6, t7, t8, Option.orElse]
  by_cases hrange : 0 < digitsVal (d :: ds') && digitsVal (d :: ds') ≤ 10 <;>
    simp [hrange]

/-- **C3**: for input `"<n> bottles"` the counted-bottle pattern fires for
`n ∈ [1,10]` with amount `bottleSize * n`; for `n` outside `[1,10]` the
deterministic extractor reports no match and `parseWaterInput` escalates
the message to the LLM fallback. -/
theorem parseWaterInputRegex_counted_bottles
    (d : Char) (ds' : List Char) (prefs : UserPreferences)
    (llm : LLMExtractionResult) (nowMs : Int)
    (h : ∀ c ∈ d :: ds', isDigitC c = true) :
    (1 ≤ digitsVal (d :: ds') ∧ digitsVal (d :: ds') ≤ 10 →
      parseWaterInputRegex ((d :: ds') ++ [' ', 'b', 'o', 't', 't', 'l', 'e', 's'])
          prefs nowMs =
        { success := true,
          amount_ml := some ((prefs.bottle_size_ml * digitsVal (d :: ds') : Nat) : ℚ),
          log_time := some (nowISTString nowMs) }) ∧
    (digitsVal (d :: ds') = 0 ∨ 10 < digitsVal (d :: ds') →
      parseWaterInputRegex ((d :: ds') ++ [' ', 'b', 'o', 't', 't', 'l', 'e', 's'])
          prefs nowMs = { success := false } ∧
      (parseWaterInput ((d :: ds') ++ [' ', 'b', 'o', 't', 't', 'l', 'e', 's'])
          prefs llm nowMs).2 = true) := by
  have hmap : ((d :: ds') ++ [' ', 'b', 'o', 't', 't', 'l', 'e', 's']).map toLowerChar =
      (d :: ds') ++ [' ', 'b', 'o', 't', 't', 'l', 'e', 's'] := by
    rw [List.map_append, map_toLower_digits h]
    rfl
  have hregex : parseWaterInputRegex ((d :: ds') ++ [' ', 'b', 'o', 't', 't', 'l', 'e', 's'])
      prefs nowMs =
      match (if 0 < digitsVal (d :: ds') && digitsVal (d :: ds') ≤ 10 then
          some (prefs.bottle_size_ml * digitsVal (d :: ds'))
        else none : Option Nat) with
      | some a =>
        { success := true, amount_ml := some (a : ℚ),
          log_time := some (nowISTString nowMs) }
      | none => { success := false } := by
    simp only [parseWaterInputRegex, hmap, regexAmount_bottles prefs h]
  constructor
  · intro hin
    rw [hregex, if_pos (by simp only [Bool.and_eq_true, decide_eq_true_eq]; omega)]
  · intro hout
    have hcond : (0 < digitsVal (d :: ds') && digitsVal (d :: ds') ≤ 10) = false := by
      simp only [Bool.and_eq_false_iff, decide_eq_false_iff_not]
      omega
    have hfail : parseWaterInputRegex ((d :: ds') ++ [' ', 'b', 'o', 't', 't', 'l', 'e', 's'])
        prefs nowMs = { success := false } := by
      rw [hregex, hcond]
      rfl
    refine ⟨hfail, ?_⟩
    simp only [parseWaterInput, hfail, Bool.false_and, Bool.and_false]
    rfl

/-- Witness for C3 at `"15 bottles"` (no match, escalates) and
`"2 bottles"` (deterministic amount `2 × 750`). -/
theorem parseWaterInputRegex_counted_bottles_witness :
    parseWaterInputRegex (('1' :: ['5']) ++ [' ', 'b', 'o', 't', 't', 'l', 'e', 's'])
        {} 0 = { success := false } ∧
    (parseWaterInput (('1' :: ['5']) ++ [' ', 'b', 'o', 't', 't', 'l', 'e', 's'])
        {} createFallbackResult 0).2 = true ∧
    parseWaterInputRegex (('2' :: []) ++ [' ', 'b', 'o', 't', 't', 'l', 'e', 's'])
        {} 0 =
      { success := true, amount_ml := some ((1500 : Nat) : ℚ),
        log_time := some (nowISTString 0) } := by
  have h15 := (parseWaterInputRegex_counted_bottles '1' ['5'] {} createFallbackResult 0
    (by decide)).2 (Or.inr (by decide))
  have h2 := (parseWaterInputRegex_counted_bottles '2' [] {} createFallbackResult 0
    (by decide)).1 ⟨by decide, by decide⟩
  exact ⟨h15.1, h15.2, h2⟩

/-! ### Evaluation on `"<digits>ml"` inputs -/

theorem matchMlAt_mlfam {d : Char} {ds' : List Char}
    (h : ∀ c ∈ d :: ds', isDigitC c = true) :
    matchMlAt ((d :: ds') ++ ['m', 'l']) = some (digitsVal (d :: ds')) := by
  simp only [matchMlAt]
  rw [takeWhile_append_cons h (by decide), dropWhile_append_cons h (by decide)]
  rfl

theorem scanMl_mlfam {d : Char} {ds' : List Char}
    (h : ∀ c ∈ d :: ds', isDigitC c = true) :
    scanFirst matchMlAt ((d :: ds') ++ ['m', 'l']) = some (digitsVal (d :: ds')) := by
  rw [List.cons_append, scanFirst_cons, ← List.cons_append, matchMlAt_mlfam h]

theorem testTimePhrase_mlfam {ds : List Char} (h : ∀ c ∈ ds, isDigitC c = true) :
    testTimePhrase (ds ++ ['m', 'l']) = false := by
  unfold testTimePhrase
  rw [List.map_append, map_toLower_digits h,
    (by rfl : List.map toLowerChar ['m', 'l'] = ['m', 'l'])]
  refine scanBoundedWords_false ?_ false
  intro w hw
  fin_cases hw
  · exact ⟨'a', by decide, not_mem_digits_append h (by decide) (by decide)⟩
  · exact ⟨'a', by decide, not_mem_digits_append h (by decide) (by decide)⟩
  · exact ⟨'b', by decide, not_mem_digits_append h (by decide) (by decide)⟩
  · exact ⟨'o', by decide, not_mem_digits_append h (by decide) (by decide)⟩
  · exact ⟨'a', by decide, not_mem_digits_append h (by decide) (by decide)⟩
  · exact ⟨'v', by decide, not_mem_digits_append h (by decide) (by decide)⟩
  · exact ⟨'h', by decide, not_mem_digits_append h (by decide) (by decide)⟩
  · exact ⟨'i', by decide, not_mem_digits_append h (by decide) (by decide)⟩

/-- **C4**: when the deterministic extractor succeeds and the text carries
no time-reference cue, `parseWaterInput` returns the deterministic result
with `log_time = now` and never invokes the fallback; in particular every
`"<a>ml"` with `a ∈ (0, 10000]` resolves deterministically to
`amount_ml = a`. -/
theorem parseWaterInput_deterministic_short_circuit :
    (∀ (text : List Char) (prefs : UserPreferences) (llm : LLMExtractionResult)
        (nowMs : Int),
      (parseWaterInputRegex text prefs nowMs).success = true →
      testTimePhrase text = false →
      parseWaterInput text prefs llm nowMs = (parseWaterInputRegex text prefs nowMs, false)) ∧
    (∀ (d : Char) (ds' : List Char) (prefs : UserPreferences)
        (llm : LLMExtractionResult) (nowMs : Int),
      (∀ c ∈ d :: ds', isDigitC c = true) →
      0 < digitsVal (d :: ds') → digitsVal (d :: ds') ≤ 10000 →
      parseWaterInput ((d :: ds') ++ ['m', 'l']) prefs llm nowMs =
        ({ success := true, amount_ml := some ((digitsVal (d :: ds') : Nat) : ℚ),
           log_time := some (nowISTString nowMs) }, false)) := by
  have general : ∀ (text : List Char) (prefs : UserPreferences)
      (llm : LLMExtractionResult) (nowMs : Int),
      (parseWaterInputRegex text prefs nowMs).success = true →
      testTimePhrase text = false →
      parseWaterInput text prefs llm nowMs = (parseWaterInputRegex text prefs nowMs, false) := by
    intro text prefs llm nowMs hsucc hcue
    simp [parseWaterInput, hsucc, hcue]
  refine ⟨general, ?_⟩
  intro d ds' prefs llm nowMs h hpos hcap
  have hmap : ((d :: ds') ++ ['m', 'l']).map toLowerChar = (d :: ds') ++ ['m', 'l'] := by
    rw [List.map_append, map_toLower_digits h]
    rfl
  have htry : tryMl ((d :: ds') ++ ['m', 'l']) = some (digitsVal (d :: ds')) := by
    simp only [tryMl]
    rw [scanMl_mlfam h]
    simp only [Bool.and_eq_true, decide_eq_true_eq]
    rw [if_pos ⟨hpos, hcap⟩]
  have hregex : parseWaterInputRegex ((d :: ds') ++ ['m', 'l']) prefs nowMs =
      { success := true, amount_ml := some ((digitsVal (d :: ds') : Nat) : ℚ),
        log_time := some (nowISTString nowMs) } := by
    simp only [parseWaterInputRegex, hmap, regexAmount, htry, Option.orElse]
  rw [general _ _ _ _ (by rw [hregex]) (testTimePhrase_mlfam h), hregex]

/-- Witness for C4 at `"500ml"`. -/
theorem parseWaterInput_deterministic_short_circuit_witness :
    parseWaterInput (('5' :: ['0', '0']) ++ ['m', 'l']) {} createFallbackResult 0 =
      ({ success := true, amount_ml := some ((500 : Nat) : ℚ),
         log_time := some (nowISTString 0) }, false) :=
  parseWaterInput_deterministic_short_circuit.2 '5' ['0', '0'] {} createFallbackResult 0
    (by decide) (by decide) (by decide)

/-- **C5**: any text the time-phrase scan flags (a word-bounded,
case-insensitive occurrence of one of the fixed cue words) is routed to
the LLM fallback path, even when the deterministic extractor could have
resolved the amount. -/
theorem parseWaterInput_time_cue_fallback
    (text : List Char) (prefs : UserPreferences) (llm : LLMExtractionResult)
    (nowMs : Int) (hcue : testTimePhrase text = true) :
    (parseWaterInput text prefs llm nowMs).2 = true ∧
    (parseWaterInput text prefs llm nowMs).1 = parseWaterInputLLM text llm nowMs := by
  cases hs : (parseWaterInputRegex text prefs nowMs).success <;>
    simp [parseWaterInput, hcue, hs]

/-- Witness for C5 at `"500ml 2 hours ago"` (deterministically resolvable
amount, but the cue word `ago` forces the fallback route). -/
theorem parseWaterInput_time_cue_fallback_witness :
    (parseWaterInput ("500ml 2 hours ago".toList) {} createFallbackResult 0).2 = true ∧
    (parseWaterInput ("500ml 2 hours ago".toList) {} createFallbackResult 0).1 =
      parseWaterInputLLM ("500ml 2 hours ago".toList) createFallbackResult 0 :=
  parseWaterInput_time_cue_fallback ("500ml 2 hours ago".toList) {} createFallbackResult 0
    (by decide)

/-- **C1 (code evaluation)**: `"500ml yesterday"` contains the word
`yesterday` and a parseable amount, yet `parseWaterInput` resolves it on
the deterministic path as a successful same-day log of 500 ml — the
fallback (and with it the `YESTERDAY_REGEX` guard of
`parseWaterInputLLM`) is never invoked, so no clarification is produced. -/
theorem parseWaterInput_yesterday_deterministic_log
    (prefs : UserPreferences) (llm : LLMExtractionResult) (nowMs : Int) :
    testYesterday ("500ml yesterday".toList) = true ∧
    parseWaterInput ("500ml yesterday".toList) prefs llm nowMs =
      ({ success := true, amount_ml := some ((500 : Nat) : ℚ),
         log_time := some (nowISTString nowMs) }, false) := by
  constructor
  · decide
  · rfl

/-- **C7**: `validateRetroactiveTime h` yields a timestamp exactly when
`0 ≤ h ≤ 12` and the instant `now − h` hours does not fall before the
start of the current IST civil day; it yields `null` for `h < 0`,
`h > 12`, and any offset crossing the previous IST day. -/
theorem validateRetroactiveTime_spec (nowMs : Int) (h : ℚ) :
    (validateRetroactiveTime nowMs h).isSome = true ↔
      0 ≤ h ∧ h ≤ 12 ∧
        ((todayMidnightIST nowMs - IST_OFFSET_MS : Int) : ℚ) ≤
          (nowMs : ℚ) - h * (60 * 60 * 1000) := by
  simp only [validateRetroactiveTime]
  split
  · next hc =>
    rw [Bool.or_eq_true_iff] at hc
    simp only [decide_eq_true_eq] at hc
    refine iff_of_false (by simp) ?_
    rintro ⟨h0, h12, -⟩
    rcases hc with hc | hc <;> linarith
  · next hc =>
    simp only [Bool.or_eq_true_iff, decide_eq_true_eq, not_or] at hc
    obtain ⟨h12, h0⟩ := hc
    split
    · next ht =>
      refine iff_of_false (by simp) ?_
      rintro ⟨-, -, hge⟩
      linarith
    · next ht =>
      rw [not_lt] at ht
      simp only [Option.isSome_some, true_iff]
      exact ⟨by linarith, by linarith, by linarith⟩

/-- **C10**: `parseRelativeOffset` only ever returns nonnegative offsets,
so the `offsetHours < 0` rejection inside `validateRetroactiveTime` is
unreachable on the resolver's relative-time path: on such offsets the
function coincides with the variant whose negative-hours test is removed. -/
theorem parseRelativeOffset_nonneg_unreachable :
    (∀ (rt : Option (List Char)) (q : ℚ), parseRelativeOffset rt = some q → 0 ≤ q) ∧
    (∀ (nowMs : Int) (q : ℚ), 0 ≤ q →
      validateRetroactiveTime nowMs q = validateRetroactiveTimeNonneg nowMs q) := by
  constructor
  · intro rt q hq
    unfold parseRelativeOffset at hq
    split at hq
    · cases hq
    · split at hq
      · cases hq
      · dsimp only at hq
        split at hq
        · next n _ =>
          obtain rfl : (n : ℚ) = q := by simpa using hq
          positivity
        · split at hq
          · next n _ =>
            obtain rfl : ((n : ℚ) / 60) = q := by simpa using hq
            positivity
          · cases hq
  · intro nowMs q hq
    simp only [validateRetroactiveTime, validateRetroactiveTimeNonneg]
    rw [show decide (q < 0) = false from decide_eq_false (by linarith), Bool.or_false]
    by_cases h12 : q > 12 <;> simp [h12]

/-- Witness for C10 at the phrase `"2 hours ago"` (offset 2) and `now = 0`. -/
theorem parseRelativeOffset_nonneg_unreachable_witness :
    (0 : ℚ) ≤ 2 ∧ validateRetroactiveTime 0 2 = validateRetroactiveTimeNonneg 0 2 := by
  have hp : parseRelativeOffset (some "2 hours ago".toList) = some 2 := by decide
  exact ⟨parseRelativeOffset_nonneg_unreachable.1 _ 2 hp,
    parseRelativeOffset_nonneg_unreachable.2 0 2
      (parseRelativeOffset_nonneg_unreachable.1 _ 2 hp)⟩

/-! ### Evaluation on relative-time phrases -/

theorem trimList_digits_tail {ds tail : List Char} (h : ∀ c ∈ ds, isDigitC c = true)
    (hne : ds ≠ []) (e : Char) (he : tail.getLast? = some e)
    (hes : isSpaceC e = false) : trimList (ds ++ tail) = ds ++ tail := by
  apply trimList_eq_self
  · intro c hc
    cases ds with
    | nil => exact absurd rfl hne
    | cons d ds' =>
      rw [List.cons_append, List.head?_cons] at hc
      have hcd : c = d := by simpa using hc.symm
      rw [hcd]
      exact isSpaceC_of_digit (h d (by simp))
  · intro c hc
    rw [List.getLast?_append, he] at hc
    obtain rfl : e = c := by simpa using hc
    exact hes

theorem matchHoursAgoAt_plural {d : Char} {ds' : List Char}
    (h : ∀ c ∈ d :: ds', isDigitC c = true) :
    matchHoursAgoAt ((d :: ds') ++ [' ', 'h', 'o', 'u', 'r', 's', ' ', 'a', 'g', 'o']) =
      some (digitsVal (d :: ds')) := by
  simp only [matchHoursAgoAt]
  rw [takeWhile_append_cons h (by decide), dropWhile_append_cons h (by decide)]
  rfl

theorem matchHoursAgoAt_singular {d : Char} {ds' : List Char}
    (h : ∀ c ∈ d :: ds', isDigitC c = true) :
    matchHoursAgoAt ((d :: ds') ++ [' ', 'h', 'o', 'u', 'r', ' ', 'a', 'g', 'o']) =
      some (digitsVal (d :: ds')) := by
  simp only [matchHoursAgoAt]
  rw [takeWhile_append_cons h (by decide), dropWhile_append_cons h (by decide)]
  rfl

theorem matchMinutesAgoAt_plural {d : Char} {ds' : List Char}
    (h : ∀ c ∈ d :: ds', isDigitC c = true) :
    matchMinutesAgoAt ((d :: ds') ++ [' ', 'm', 'i', 'n', 'u', 't', 'e', 's', ' ', 'a', 'g', 'o']) =
      some (digitsVal (d :: ds')) := by
  simp only [matchMinutesAgoAt]
  rw [takeWhile_append_cons h (by decide), dropWhile_append_cons h (by decide)]
  rfl

theorem matchMinutesAgoAt_singular {d : Char} {ds' : List Char}
    (h : ∀ c ∈ d :: ds', isDigitC c = true) :
    matchMinutesAgoAt ((d :: ds') ++ [' ', 'm', 'i', 'n', 'u', 't', 'e', ' ', 'a', 'g', 'o']) =
      some (digitsVal (d :: ds')) := by
  simp only [matchMinutesAgoAt]
  rw [takeWhile_append_cons h (by decide), dropWhile_append_cons h (by decide)]
  rfl

theorem map_lower_digits_tail {ds tail : List Char} (h : ∀ c ∈ ds, isDigitC c = true)
    (htail : tail.map toLowerChar = tail) :
    (ds ++ tail).map toLowerChar = ds ++ tail := by
  rw [List.map_append, map_toLower_digits h, htail]

theorem parseRelativeOffset_cons (d : Char) (m : List Char) :
    parseRelativeOffset (some (d :: m)) =
      (match scanFirst matchHoursAgoAt (trimList ((d :: m).map toLowerChar)) with
       | some n => some ((n : ℚ))
       | none =>
         match scanFirst matchMinutesAgoAt (trimList ((d :: m).map toLowerChar)) with
         | some n => some ((n : ℚ) / 60)
         | none => none) := by
  simp only [parseRelativeOffset, List.isEmpty_cons]
  rfl

/-- **C8**: `parseRelativeOffset` returns `N` on `"N hour(s) ago"`, `N/60`
on `"N minute(s) ago"`, `null` on the vague phrasings, and every non-null
result arises from one of those two patterns. -/
theorem parseRelativeOffset_spec :
    (∀ (d : Char) (ds' : List Char), (∀ c ∈ d :: ds', isDigitC c = true) →
      parseRelativeOffset
          (some ((d :: ds') ++ [' ', 'h', 'o', 'u', 'r', 's', ' ', 'a', 'g', 'o'])) =
        some ((digitsVal (d :: ds') : ℚ)) ∧
      parseRelativeOffset
          (some ((d :: ds') ++ [' ', 'h', 'o', 'u', 'r', ' ', 'a', 'g', 'o'])) =
        some ((digitsVal (d :: ds') : ℚ)) ∧
      parseRelativeOffset
          (some ((d :: ds') ++ [' ', 'm', 'i', 'n', 'u', 't', 'e', 's', ' ', 'a', 'g', 'o'])) =
        some ((digitsVal (d :: ds') : ℚ) / 60) ∧
      parseRelativeOffset
          (some ((d :: ds') ++ [' ', 'm', 'i', 'n', 'u', 't', 'e', ' ', 'a', 'g', 'o'])) =
        some ((digitsVal (d :: ds') : ℚ) / 60)) ∧
    (parseRelativeOffset (some "earlier".toList) = none ∧
      parseRelativeOffset (some "before".toList) = none ∧
      parseRelativeOffset (some "some time ago".toList) = none ∧
      parseRelativeOffset (some "yesterday evening".toList) = none ∧
      parseRelativeOffset none = none) ∧
    (∀ (s : List Char) (q : ℚ), parseRelativeOffset (some s) = some q →
      (∃ n : Nat,
        scanFirst matchHoursAgoAt (trimList (s.map toLowerChar)) = some n ∧ q = n) ∨
      (∃ n : Nat,
        scanFirst matchMinutesAgoAt (trimList (s.map toLowerChar)) = some n ∧
          q = (n : ℚ) / 60)) := by
  refine ⟨?_, ⟨by decide, by decide, by decide, by decide, rfl⟩, ?_⟩
  · intro d ds' h
    have hne : (d :: ds') ≠ ([] : List Char) := by simp
    refine ⟨?_, ?_, ?_, ?_⟩
    · rw [List.cons_append, parseRelativeOffset_cons, ← List.cons_append,
        map_lower_digits_tail h (by decide),
        trimList_digits_tail h hne 'o' (by decide) (by decide),
        List.cons_append, scanFirst_cons, ← List.cons_append, matchHoursAgoAt_plural h]
    · rw [List.cons_append, parseRelativeOffset_cons, ← List.cons_append,
        map_lower_digits_tail h (by decide),
        trimList_digits_tail h hne 'o' (by decide) (by decide),
        List.cons_append, scanFirst_cons, ← List.cons_append, matchHoursAgoAt_singular h]
    · have hnoh : 'h' ∉ (d :: ds') ++ [' ', 'm', 'i', 'n', 'u', 't', 'e', 's', ' ', 'a', 'g', 'o'] :=
        not_mem_digits_append h (by decide) (by decide)
      rw [List.cons_append, parseRelativeOffset_cons, ← List.cons_append,
        map_lower_digits_tail h (by decide),
        trimList_digits_tail h hne 'o' (by decide) (by decide),
        scanFirst_none_of_not_mem (fun s n hs => matchHoursAgoAt_mem hs) hnoh,
        List.cons_append, scanFirst_cons, ← List.cons_append, matchMinutesAgoAt_plural h]
    · have hnoh : 'h' ∉ (d :: ds') ++ [' ', 'm', 'i', 'n', 'u', 't', 'e', ' ', 'a', 'g', 'o'] :=
        not_mem_digits_append h (by decide) (by decide)
      rw [List.cons_append, parseRelativeOffset_cons, ← List.cons_append,
        map_lower_digits_tail h (by decide),
        trimList_digits_tail h hne 'o' (by decide) (by decide),
        scanFirst_none_of_not_mem (fun s n hs => matchHoursAgoAt_mem hs) hnoh,
        List.cons_append, scanFirst_cons, ← List.cons_append, matchMinutesAgoAt_singular h]
  · intro s q hq
    cases s with
    | nil => simp [parseRelativeOffset] at hq
    | cons d m =>
      rw [parseRelativeOffset_cons] at hq
      revert hq
      cases hh : scanFirst matchHoursAgoAt (trimList ((d :: m).map toLowerChar)) with
      | some n =>
        intro hq
        exact Or.inl ⟨n, rfl, by simpa using hq.symm⟩
      | none =>
        cases hm : scanFirst matchMinutesAgoAt (trimList ((d :: m).map toLowerChar)) with
        | some n =>
          intro hq
          exact Or.inr ⟨n, rfl, by simpa using hq.symm⟩
        | none =>
          intro hq
          simp at hq

/-- Witness for C8 at `"2 hours ago"` and `"30 minutes ago"`. -/
theorem parseRelativeOffset_spec_witness :
    parseRelativeOffset
        (some (('2' :: []) ++ [' ', 'h', 'o', 'u', 'r', 's', ' ', 'a', 'g', 'o'])) =
      some ((digitsVal ('2' :: []) : ℚ)) ∧
    parseRelativeOffset
        (some (('3' :: ['0']) ++ [' ', 'm', 'i', 'n', 'u', 't', 'e', 's', ' ', 'a', 'g', 'o'])) =
      some ((digitsVal ('3' :: ['0']) : ℚ) / 60) :=
  ⟨(parseRelativeOffset_spec.1 '2' [] (by decide)).1,
   (parseRelativeOffset_spec.1 '3' ['0'] (by decide)).2.2.1⟩

/-! ### Evaluation of `parseBottleSizeResponse` input families -/

theorem affirmAny_false_digit_head {d : Char} {m : List Char} (hd : isDigitC d = true) :
    (AFFIRMATIVE_WORDS.any fun w => d :: m = w) = false := by
  rw [Bool.eq_false_iff]
  intro htrue
  obtain ⟨w, hw, hww⟩ := List.any_eq_true.mp htrue
  have heq : d :: m = w := by simpa using hww
  fin_cases hw <;>
    (injection heq with h1 _; exact digit_ne hd (by decide) h1)

theorem all_isDigitC_false_of_mem {l : List Char} {x : Char} (hx : x ∈ l)
    (hnd : isDigitC x = false) : l.all isDigitC = false := by
  rw [Bool.eq_false_iff]
  intro hall
  rw [List.all_eq_true.mp hall x hx] at hnd
  cases hnd

theorem matchMlLooseAt_mlfam {d : Char} {ds' : List Char}
    (h : ∀ c ∈ d :: ds', isDigitC c = true) :
    matchMlLooseAt ((d :: ds') ++ ['m', 'l']) = some (digitsVal (d :: ds')) := by
  simp only [matchMlLooseAt]
  rw [takeWhile_append_cons h (by decide), dropWhile_append_cons h (by decide)]
  rfl

theorem scanMlLoose_mlfam {d : Char} {ds' : List Char}
    (h : ∀ c ∈ d :: ds', isDigitC c = true) :
    scanFirst matchMlLooseAt ((d :: ds') ++ ['m', 'l']) = some (digitsVal (d :: ds')) := by
  rw [List.cons_append, scanFirst_cons, ← List.cons_append, matchMlLooseAt_mlfam h]

theorem matchLiterLooseAt_mlfam {ds₂ : List Char} (h : ∀ c ∈ ds₂, isDigitC c = true) :
    matchLiterLooseAt (ds₂ ++ ['m', 'l']) = none := by
  cases ds₂ with
  | nil => decide
  | cons d ds' =>
    simp only [matchLiterLooseAt]
    rw [takeWhile_append_cons h (by decide), dropWhile_append_cons h (by decide)]
    rfl

theorem scanLiterLoose_mlfam {ds : List Char} (h : ∀ c ∈ ds, isDigitC c = true) :
    scanFirst matchLiterLooseAt (ds ++ ['m', 'l']) = none := by
  have hall : ∀ u ∈ List.tails (['m', 'l'] : List Char), matchLiterLooseAt u = none := by
    decide
  refine scanFirst_eq_none fun s hs => ?_
  rcases suffix_digits_append hs with ⟨t, ht, rfl⟩ | hst
  · exact matchLiterLooseAt_mlfam fun c hc => h c (ht.subset hc)
  · exact hall s ((List.mem_tails _ _).mpr hst)

theorem matchLiterLooseAt_lfam {d : Char} {ds' : List Char}
    (h : ∀ c ∈ d :: ds', isDigitC c = true) :
    matchLiterLooseAt ((d :: ds') ++ ['l']) = some (1000 * digitsVal (d :: ds')) := by
  have hval : literAmount (d :: ds') [] = 1000 * digitsVal (d :: ds') := by
    simp only [literAmount, List.length_nil, pow_zero, digitsVal, List.foldl_nil]
    omega
  simp only [matchLiterLooseAt]
  rw [takeWhile_append_cons h (by decide), dropWhile_append_cons h (by decide)]
  show some (literAmount (d :: ds') []) = some (1000 * digitsVal (d :: ds'))
  rw [hval]

theorem trimList_digits {d : Char} {ds' : List Char}
    (h : ∀ c ∈ d :: ds', isDigitC c = true) : trimList (d :: ds') = d :: ds' := by
  apply trimList_eq_self
  · intro c hc
    rw [List.head?_cons] at hc
    have hcd : c = d := by simpa using hc.symm
    rw [hcd]
    exact isSpaceC_of_digit (h d (by simp))
  · intro c hc
    have hcm : c ∈ d :: ds' := by
      obtain ⟨hne', heq⟩ := List.mem_getLast?_eq_getLast
        (show c ∈ (d :: ds').getLast? from Option.mem_def.mpr hc)
      rw [heq]
      exact List.getLast_mem hne'
    exact isSpaceC_of_digit (h c hcm)

theorem bottleFromBareNumber_range (l : List Char) :
    bottleFromBareNumber l = none ∨
      ∃ v, bottleFromBareNumber l = some v ∧ 100 ≤ v ∧ v ≤ 3000 := by
  unfold bottleFromBareNumber
  split
  · dsimp only
    split
    · next hg =>
      simp only [Bool.and_eq_true, decide_eq_true_eq] at hg
      exact Or.inr ⟨digitsVal l, rfl, hg.1, hg.2⟩
    · exact Or.inl rfl
  · exact Or.inl rfl

theorem bottleFromLiter_range (l : List Char) :
    bottleFromLiter l = none ∨
      ∃ v, bottleFromLiter l = some v ∧ 100 ≤ v ∧ v ≤ 3000 := by
  unfold bottleFromLiter
  split
  · next size _ =>
    split
    · next hg =>
      simp only [Bool.and_eq_true, decide_eq_true_eq] at hg
      exact Or.inr ⟨size, rfl, hg.1, hg.2⟩
    · exact bottleFromBareNumber_range l
  · exact bottleFromBareNumber_range l

/-- **C9**: `parseBottleSizeResponse` only ever returns `null` or an
integer in `[100, 3000]`; bare affirmative words return exactly 750; and
on single-value inputs `"<n>ml"`, `"<n>l"`, `"<n>"` an out-of-range value
yields `null` while an in-range value is returned. -/
theorem parseBottleSizeResponse_spec :
    (∀ text : List Char, parseBottleSizeResponse text = none ∨
      ∃ v, parseBottleSizeResponse text = some v ∧ 100 ≤ v ∧ v ≤ 3000) ∧
    (∀ w ∈ AFFIRMATIVE_WORDS, parseBottleSizeResponse w = some 750) ∧
    (∀ (d : Char) (ds' : List Char), (∀ c ∈ d :: ds', isDigitC c = true) →
      (parseBottleSizeResponse ((d :: ds') ++ ['m', 'l']) =
        if 100 ≤ digitsVal (d :: ds') ∧ digitsVal (d :: ds') ≤ 3000 then
          some (digitsVal (d :: ds')) else none) ∧
      (parseBottleSizeResponse ((d :: ds') ++ ['l']) =
        if 100 ≤ 1000 * digitsVal (d :: ds') ∧ 1000 * digitsVal (d :: ds') ≤ 3000 then
          some (1000 * digitsVal (d :: ds')) else none) ∧
      (parseBottleSizeResponse (d :: ds') =
        if 100 ≤ digitsVal (d :: ds') ∧ digitsVal (d :: ds') ≤ 3000 then
          some (digitsVal (d :: ds')) else none)) := by
  refine ⟨?_, by decide, ?_⟩
  · intro text
    simp only [parseBottleSizeResponse]
    split
    · exact Or.inr ⟨750, rfl, by norm_num, by norm_num⟩
    · split
      · next size _ =>
        split
        · next hg =>
          simp only [Bool.and_eq_true, decide_eq_true_eq] at hg
          exact Or.inr ⟨size, rfl, hg.1, hg.2⟩
        · exact bottleFromLiter_range _
      · exact bottleFromLiter_range _
  · intro d ds' h
    have hd : isDigitC d = true := h d (by simp)
    have hne : (d :: ds') ≠ ([] : List Char) := by simp
    refine ⟨?_, ?_, ?_⟩
    · -- "<n>ml"
      have hbl : bottleFromLiter ((d :: ds') ++ ['m', 'l']) = none := by
        unfold bottleFromLiter
        rw [scanLiterLoose_mlfam h]
        unfold bottleFromBareNumber
        rw [all_isDigitC_false_of_mem
          (List.mem_append_right _ (by decide : 'm' ∈ ['m', 'l'])) (by decide)]
        simp
      simp only [parseBottleSizeResponse]
      rw [map_lower_digits_tail h (by decide),
        trimList_digits_tail h hne 'l' (by decide) (by decide),
        List.cons_append, affirmAny_false_digit_head hd, ← List.cons_append]
      rw [if_neg (by simp), scanMlLoose_mlfam h]
      dsimp only
      by_cases hr : 100 ≤ digitsVal (d :: ds') ∧ digitsVal (d :: ds') ≤ 3000
      · rw [if_pos (by simp only [Bool.and_eq_true, decide_eq_true_eq]; exact hr),
          if_pos hr]
      · rw [if_neg (by simpa [Bool.and_eq_true, decide_eq_true_eq] using hr),
          if_neg hr, hbl]
    · -- "<n>l"
      have hnom : 'm' ∉ (d :: ds') ++ ['l'] :=
        not_mem_digits_append h (by decide) (by decide)
      have hbare : bottleFromBareNumber ((d :: ds') ++ ['l']) = none := by
        unfold bottleFromBareNumber
        rw [all_isDigitC_false_of_mem
          (List.mem_append_right _ (by decide : 'l' ∈ ['l'])) (by decide)]
        simp
      simp only [parseBottleSizeResponse]
      rw [map_lower_digits_tail h (by decide),
        trimList_digits_tail h hne 'l' (by decide) (by decide),
        List.cons_append, affirmAny_false_digit_head hd, ← List.cons_append]
      rw [if_neg (by simp),
        scanFirst_none_of_not_mem (fun s n hs => matchMlLooseAt_mem hs) hnom]
      unfold bottleFromLiter
      rw [List.cons_append, scanFirst_cons, ← List.cons_append, matchLiterLooseAt_lfam h]
      dsimp only
      by_cases hr : 100 ≤ 1000 * digitsVal (d :: ds') ∧ 1000 * digitsVal (d :: ds') ≤ 3000
      · rw [if_pos (by simp only [Bool.and_eq_true, decide_eq_true_eq]; exact hr),
          if_pos hr]
      · rw [if_neg (by simpa [Bool.and_eq_true, decide_eq_true_eq] using hr),
          if_neg hr, hbare]
    · -- "<n>"
      have hnom : 'm' ∉ (d :: ds') := fun hm => absurd (h 'm' hm) (by decide)
      have hnol : 'l' ∉ (d :: ds') := fun hm => absurd (h 'l' hm) (by decide)
      simp only [parseBottleSizeResponse]
      rw [map_toLower_digits h, trimList_digits h, affirmAny_false_digit_head hd]
      rw [if_neg (by simp),
        scanFirst_none_of_not_mem (fun s n hs => matchMlLooseAt_mem hs) hnom]
      unfold bottleFromLiter
      rw [scanFirst_none_of_not_mem (fun s n hs => matchLiterLooseAt_mem hs) hnol]
      unfold bottleFromBareNumber
      rw [List.all_eq_true.mpr fun c hc => by
        rw [h c hc]]
      dsimp only
      by_cases hr : 100 ≤ digitsVal (d :: ds') ∧ digitsVal (d :: ds') ≤ 3000
      · rw [if_pos (by simp), if_pos (by simp only [Bool.and_eq_true, decide_eq_true_eq]; exact hr),
          if_pos hr]
      · rw [if_pos (by simp), if_neg (by simpa [Bool.and_eq_true, decide_eq_true_eq] using hr),
          if_neg hr]

/-- Witness for C9 at `"500ml"` (in range) and `"5000"` (out of range). -/
theorem parseBottleSizeResponse_spec_witness :
    parseBottleSizeResponse (('5' :: ['0', '0']) ++ ['m', 'l']) = some 500 ∧
    parseBottleSizeResponse ('5' :: ['0', '0', '0']) = none := by
  have h1 := ((parseBottleSizeResponse_spec.2.2 '5' ['0', '0'] (by decide)).1)
  have h2 := ((parseBottleSizeResponse_spec.2.2 '5' ['0', '0', '0'] (by decide)).2.2)
  rw [if_pos (by decide)] at h1
  rw [if_neg (by decide)] at h2
  exact ⟨h1, h2⟩

/-! ### Amount ranges of the deterministic extractor -/

theorem tryMl_range {l : List Char} {a : Nat} (h : tryMl l = some a) :
    0 < a ∧ a ≤ 10000 := by
  unfold tryMl at h
  split at h
  · split at h
    · next hg =>
      simp only [Bool.and_eq_true, decide_eq_true_eq] at hg
      obtain rfl : _ = a := Option.some_inj.mp h
      exact hg
    · cases h
  · cases h

theorem tryLiter_range {l : List Char} {a : Nat} (h : tryLiter l = some a) :
    0 < a ∧ a ≤ 10000 := by
  unfold tryLiter at h
  split at h
  · split at h
    · next hg =>
      simp only [Bool.and_eq_true, decide_eq_true_eq] at hg
      obtain rfl : _ = a := Option.some_inj.mp h
      exact hg
    · cases h
  · cases h

theorem tryHalfBottle_range {l : List Char} {prefs : UserPreferences} {a : Nat}
    (hb1 : 100 ≤ prefs.bottle_size_ml) (hb2 : prefs.bottle_size_ml ≤ 1000)
    (h : tryHalfBottle l prefs = some a) : 0 < a ∧ a ≤ 10000 := by
  unfold tryHalfBottle at h
  split at h
  · obtain rfl : _ = a := Option.some_inj.mp h
    omega
  · cases h

theorem tryQuarterBottle_range {l : List Char} {prefs : UserPreferences} {a : Nat}
    (hb1 : 100 ≤ prefs.bottle_size_ml) (hb2 : prefs.bottle_size_ml ≤ 1000)
    (h : tryQuarterBottle l prefs = some a) : 0 < a ∧ a ≤ 10000 := by
  unfold tryQuarterBottle at h
  split at h
  · obtain rfl : _ = a := Option.some_inj.mp h
    omega
  · cases h

theorem tryCountedBottle_range {l : List Char} {prefs : UserPreferences} {a : Nat}
    (hb1 : 100 ≤ prefs.bottle_size_ml) (hb2 : prefs.bottle_size_ml ≤ 1000)
    (h : tryCountedBottle l prefs = some a) : 0 < a ∧ a ≤ 10000 := by
  unfold tryCountedBottle at h
  split at h
  · next n _ =>
    split at h
    · next hg =>
      simp only [Bool.and_eq_true, decide_eq_true_eq] at hg
      obtain rfl : _ = a := Option.some_inj.mp h
      constructor
      · exact Nat.mul_pos (by omega) hg.1
      · calc prefs.bottle_size_ml * n ≤ 1000 * 10 := Nat.mul_le_mul hb2 hg.2
          _ = 10000 := by norm_num
    · cases h
  · cases h

theorem tryBareBottle_range {l : List Char} {prefs : UserPreferences} {a : Nat}
    (hb1 : 100 ≤ prefs.bottle_size_ml) (hb2 : prefs.bottle_size_ml ≤ 1000)
    (h : tryBareBottle l prefs = some a) : 0 < a ∧ a ≤ 10000 := by
  unfold tryBareBottle at h
  split at h
  · obtain rfl : _ = a := Option.some_inj.mp h
    omega
  · cases h

theorem tryGlass_range {l : List Char} {a : Nat} (h : tryGlass l = some a) :
    0 < a ∧ a ≤ 10000 := by
  unfold tryGlass at h
  split at h
  · next n _ =>
    split at h
    · next hg =>
      simp only [Bool.and_eq_true, decide_eq_true_eq] at hg
      obtain rfl : _ = a := Option.some_inj.mp h
      omega
    · cases h
  · cases h

theorem tryCup_range {l : List Char} {a : Nat} (h : tryCup l = some a) :
    0 < a ∧ a ≤ 10000 := by
  unfold tryCup at h
  split at h
  · next n _ =>
    split at h
    · next hg =>
      simp only [Bool.and_eq_true, decide_eq_true_eq] at hg
      obtain rfl : _ = a := Option.some_inj.mp h
      omega
    · cases h
  · cases h

theorem regexAmount_range {lower : List Char} {prefs : UserPreferences} {a : Nat}
    (hb1 : 100 ≤ prefs.bottle_size_ml) (hb2 : prefs.bottle_size_ml ≤ 1000)
    (h : regexAmount lower prefs = some a) : 0 < a ∧ a ≤ 10000 := by
  unfold regexAmount at h
  cases h1 : tryMl lower with
  | some v =>
    rw [h1] at h
    simp only [Option.orElse] at h
    obtain rfl : v = a := Option.some_inj.mp h
    exact tryMl_range h1
  | none =>
  rw [h1] at h
  simp only [Option.orElse] at h
  cases h2 : tryLiter lower with
  | some v =>
    rw [h2] at h
    simp only [Option.orElse] at h
    obtain rfl : v = a := Option.some_inj.mp h
    exact tryLiter_range h2
  | none =>
  rw [h2] at h
  simp only [Option.orElse] at h
  cases h3 : tryHalfBottle lower prefs with
  | some v =>
    rw [h3] at h
    simp only [Option.orElse] at h
    obtain rfl : v = a := Option.some_inj.mp h
    exact tryHalfBottle_range hb1 hb2 h3
  | none =>
  rw [h3] at h
  simp only [Option.orElse] at h
  cases h4 : tryQuarterBottle lower prefs with
  | some v =>
    rw [h4] at h
    simp only [Option.orElse] at h
    obtain rfl : v = a := Option.some_inj.mp h
    exact tryQuarterBottle_range hb1 hb2 h4
  | none =>
  rw [h4] at h
  simp only [Option.orElse] at h
  cases h5 : tryCountedBottle lower prefs with
  | some v =>
    rw [h5] at h
    simp only [Option.orElse] at h
    obtain rfl : v = a := Option.some_inj.mp h
    exact tryCountedBottle_range hb1 hb2 h5
  | none =>
  rw [h5] at h
  simp only [Option.orElse] at h
  cases h6 : tryBareBottle lower prefs with
  | some v =>
    rw [h6] at h
    simp only [Option.orElse] at h
    obtain rfl : v = a := Option.some_inj.mp h
    exact tryBareBottle_range hb1 hb2 h6
  | none =>
  rw [h6] at h
  simp only [Option.orElse] at h
  cases h7 : tryGlass lower with
  | some v =>
    rw [h7] at h
    simp only [Option.orElse] at h
    obtain rfl : v = a := Option.some_inj.mp h
    exact tryGlass_range h7
  | none =>
  rw [h7] at h
  simp only [Option.orElse] at h
  exact tryCup_range h

/-- **C2 counterexample**: with a configured bottle size of 3000 ml (a
value `parseBottleSizeResponse` itself accepts), `"10 bottles"` is
returned by the deterministic extractor with `success = true` and
`amount_ml = 30000 ∉ (0, 10000]`, and the resolver does not escalate to
the fallback. -/
theorem parseWaterInputRegex_counted_bottles_exceeds_cap :
    parseWaterInputRegex ("10 bottles".toList) { bottle_size_ml := 3000 } 0 =
      { success := true, amount_ml := some ((30000 : Nat) : ℚ),
        log_time := some (nowISTString 0) } ∧
    ¬((30000 : Nat) ≤ 10000) ∧
    (parseWaterInput ("10 bottles".toList) { bottle_size_ml := 3000 }
        createFallbackResult 0).2 = false := by
  refine ⟨rfl, by decide, rfl⟩

/-- **C2 (amended)**: the ml and liter patterns re-validate their amounts
against `(0, 10000]` (out-of-range numeric matches fall through as
non-matches), but the bottle/glass/cup patterns do not; every successful
amount lies in `(0, 10000]` provided the configured bottle size is at
most 1000 ml. -/
theorem parseWaterInputRegex_range_amended :
    (∀ (l : List Char) (a : Nat), tryMl l = some a → 0 < a ∧ a ≤ 10000) ∧
    (∀ (l : List Char) (a : Nat), tryLiter l = some a → 0 < a ∧ a ≤ 10000) ∧
    (∀ (text : List Char) (prefs : UserPreferences) (nowMs : Int),
      100 ≤ prefs.bottle_size_ml → prefs.bottle_size_ml ≤ 1000 →
      (parseWaterInputRegex text prefs nowMs).success = true →
      ∃ a : Nat, (parseWaterInputRegex text prefs nowMs).amount_ml = some ((a : Nat) : ℚ) ∧
        0 < a ∧ a ≤ 10000) := by
  refine ⟨fun l a h => tryMl_range h, fun l a h => tryLiter_range h, ?_⟩
  intro text prefs nowMs hb1 hb2 hsucc
  revert hsucc
  unfold parseWaterInputRegex
  cases hr : regexAmount (text.map toLowerChar) prefs with
  | some a =>
    intro _
    exact ⟨a, rfl, regexAmount_range hb1 hb2 hr⟩
  | none =>
    intro hsucc
    cases hsucc

/-- Witness for the amended C2 at `"2 bottles"` with a 750 ml bottle. -/
theorem parseWaterInputRegex_range_amended_witness :
    ∃ a : Nat,
      (parseWaterInputRegex ("2 bottles".toList) { bottle_size_ml := 750 } 0).amount_ml =
        some ((a : Nat) : ℚ) ∧ 0 < a ∧ a ≤ 10000 :=
  parseWaterInputRegex_range_amended.2.2 ("2 bottles".toList) { bottle_size_ml := 750 } 0
    (by decide) (by decide) (by decide)

/-- **C6**: `extractWaterIntent` is total and never propagates a failure:
with no (or an empty) credential it returns the clarify/ambiguous
short-circuit without any network call; with a credential, a thrown
transport error or timeout, a non-success HTTP status, missing or empty
content, and unparseable JSON all map to the safe `createFallbackResult`
(`intent = clarify`, `ambiguous = true`). -/
theorem extractWaterIntent_never_raises :
    (∀ (outcome : FetchOutcome) (jp : List Char → Option JsonFields),
      extractWaterIntent none outcome jp = (noKeyResult, false) ∧
      extractWaterIntent (some "") outcome jp = (noKeyResult, false)) ∧
    noKeyResult.intent = .clarify ∧ noKeyResult.ambiguous = true ∧
    createFallbackResult.intent = .clarify ∧ createFallbackResult.ambiguous = true ∧
    (∀ (key : Option String) (jp : List Char → Option JsonFields),
      isFalsyKey key = false →
      extractWaterIntent key .throwsErr jp = (createFallbackResult, true)) ∧
    (∀ (key : Option String) (jp : List Char → Option JsonFields)
        (content : Option (List Char)), isFalsyKey key = false →
      extractWaterIntent key (.response false content) jp = (createFallbackResult, true)) ∧
    (∀ (key : Option String) (jp : List Char → Option JsonFields),
      isFalsyKey key = false →
      extractWaterIntent key (.response true none) jp = (createFallbackResult, true) ∧
      extractWaterIntent key (.response true (some [])) jp = (createFallbackResult, true)) ∧
    (∀ (key : Option String) (jp : List Char → Option JsonFields) (c : List Char),
      isFalsyKey key = false → parseJSONSafely jp c = none →
      extractWaterIntent key (.response true (some c)) jp = (createFallbackResult, true)) := by
  refine ⟨fun outcome jp => ⟨rfl, rfl⟩, rfl, rfl, rfl, rfl, ?_, ?_, ?_, ?_⟩
  · intro key jp hkey
    simp [extractWaterIntent, hkey]
  · intro key jp content hkey
    simp [extractWaterIntent, hkey]
  · intro key jp hkey
    constructor <;> simp [extractWaterIntent, hkey]
  · intro key jp c hkey hparse
    cases c with
    | nil => simp [extractWaterIntent, hkey]
    | cons x t =>
      simp only [extractWaterIntent, hkey, Bool.false_eq_true, if_false,
        Bool.not_true, List.isEmpty_cons, hparse]

/-- Witness for C6: a configured key, an HTTP 200 whose body the JSON
parser rejects, degrades to the fallback clarify value. -/
theorem extractWaterIntent_never_raises_witness :
    extractWaterIntent (some "k") (.response true (some ['z']))
        (fun _ => none) = (createFallbackResult, true) :=
  extractWaterIntent_never_raises.2.2.2.2.2.2.2.2 (some "k") (fun _ => none) ['z']
    (by decide) rfl

end HydrationBot
